import Mathlib

/-!
Verification development for the pvxs dynamic typed-value subsystem.

The definitions below are a shallow embedding of the C++ sources:
  src/src/data.cpp           (ValueBase / MValue / IValue operations)
  src/src/dataimpl.h         (FieldDesc, FieldStorage, StructTop)
  src/src/pvxs/sharedArray.h (shared_array, ArrayType)
  src/src/clientintrospect.cpp (InfoOp / Connection::handle_GET_FIELD)

C++ flat arrays of descriptors and storage cells are modelled as Lean lists,
pointers into them as indices, and machine integers as Nat/Int with explicit
wrap-around where overflow matters.  Heap sharing (shared_ptr reference
counts) is modelled by passing the relevant use_count explicitly.
-/

namespace Pvxs

/-- Kind of a type code.  Modelled from the spec (section 3.1): pvxs/data.h is
not part of the provided sources.  A code carries a Kind
(Null/Bool/Integer/Real/String/Compound) and an isArray flag. -/
inductive Kind : Type where
  | Null
  | Bool
  | Integer
  | Real
  | String
  | Compound
deriving DecidableEq, Repr

/-- Single-byte type codes.  Modelled from the spec (section 3.1): pvxs/data.h
is not part of the provided sources.  The numeric encodings are corroborated by
the ArrayType values in src/pvxs/sharedArray.h (array codes carry bit 0x08,
unsigned integers carry the parity bit 0x04). -/
inductive TypeCode : Type where
  | Null
  | Bool | BoolA
  | Int8 | Int16 | Int32 | Int64
  | UInt8 | UInt16 | UInt32 | UInt64
  | Int8A | Int16A | Int32A | Int64A
  | UInt8A | UInt16A | UInt32A | UInt64A
  | Float32 | Float64 | Float32A | Float64A
  | String | StringA
  | Struct | Union | Any
  | StructA | UnionA | AnyA
deriving DecidableEq, Repr

/-- Byte value of a type code (spec section 3.1 encoding, matching the
ArrayType bytes fixed in src/pvxs/sharedArray.h). -/
def TypeCode.byte : TypeCode → Nat
  | .Null => 0xff
  | .Bool => 0x00 | .BoolA => 0x08
  | .Int8 => 0x20 | .Int16 => 0x21 | .Int32 => 0x22 | .Int64 => 0x23
  | .UInt8 => 0x24 | .UInt16 => 0x25 | .UInt32 => 0x26 | .UInt64 => 0x27
  | .Int8A => 0x28 | .Int16A => 0x29 | .Int32A => 0x2a | .Int64A => 0x2b
  | .UInt8A => 0x2c | .UInt16A => 0x2d | .UInt32A => 0x2e | .UInt64A => 0x2f
  | .Float32 => 0x42 | .Float64 => 0x43
  | .Float32A => 0x4a | .Float64A => 0x4b
  | .String => 0x60 | .StringA => 0x68
  | .Struct => 0x80 | .Union => 0x81 | .Any => 0x82
  | .StructA => 0x88 | .UnionA => 0x89 | .AnyA => 0x8a

/-- Kind carried by a type code (spec section 3.1). -/
def TypeCode.kind : TypeCode → Kind
  | .Null => .Null
  | .Bool | .BoolA => .Bool
  | .Int8 | .Int16 | .Int32 | .Int64
  | .UInt8 | .UInt16 | .UInt32 | .UInt64
  | .Int8A | .Int16A | .Int32A | .Int64A
  | .UInt8A | .UInt16A | .UInt32A | .UInt64A => .Integer
  | .Float32 | .Float64 | .Float32A | .Float64A => .Real
  | .String | .StringA => .String
  | .Struct | .Union | .Any | .StructA | .UnionA | .AnyA => .Compound

/-- Alias avoiding the clash between the Bool type and the per-namespace Bool
constructors. -/
abbrev Flag := Bool

/-- Whether the code is an array code (spec section 3.1 isArray flag). -/
def TypeCode.isarray : TypeCode → Flag
  | .BoolA
  | .Int8A | .Int16A | .Int32A | .Int64A
  | .UInt8A | .UInt16A | .UInt32A | .UInt64A
  | .Float32A | .Float64A
  | .StringA
  | .StructA | .UnionA | .AnyA => true
  | _ => false

/-- Whether the code is an unsigned integer code (parity bit of the
encoding, spec section 3.1). -/
def TypeCode.isunsigned : TypeCode → Flag
  | .UInt8 | .UInt16 | .UInt32 | .UInt64
  | .UInt8A | .UInt16A | .UInt32A | .UInt64A => true
  | _ => false

/-- Storage type tag of a storage cell (dataimpl.h FieldStorage commentary and
spec section 3.3): all integer widths are promoted to 64-bit, both float widths
to double. -/
inductive StoreType : Type where
  | Null
  | Bool
  | Integer
  | UInteger
  | Real
  | String
  | Array
  | Compound
deriving DecidableEq, Repr

/-- Runtime element-type tag of a shared_array (src/pvxs/sharedArray.h). -/
inductive ArrayType : Type where
  | Null
  | Bool
  | Int8 | Int16 | Int32 | Int64
  | UInt8 | UInt16 | UInt32 | UInt64
  | Float | Double
  | String
  | Value
deriving DecidableEq, Repr

/-- Byte value of an ArrayType (the enumerator values in
src/pvxs/sharedArray.h). -/
def ArrayType.byte : ArrayType → Nat
  | .Null => 0xff
  | .Bool => 0x08
  | .Int8 => 0x28 | .Int16 => 0x29 | .Int32 => 0x2a | .Int64 => 0x2b
  | .UInt8 => 0x2c | .UInt16 => 0x2d | .UInt32 => 0x2e | .UInt64 => 0x2f
  | .Float => 0x4a | .Double => 0x4b
  | .String => 0x68
  | .Value => 0x88

/-- One node of the flat depth-first descriptor array (dataimpl.h FieldDesc).
Offsets in mlookup/miter are relative to the current node. -/
inductive FieldDesc : Type where
  | mk (code : TypeCode) (id : String)
       (mlookup : List (String × Nat))
       (miter : List (String × Nat))
       (parent_index : Nat)
       (members : List FieldDesc)

def FieldDesc.code : FieldDesc → TypeCode
  | .mk c _ _ _ _ _ => c

def FieldDesc.id : FieldDesc → String
  | .mk _ i _ _ _ _ => i

def FieldDesc.mlookup : FieldDesc → List (String × Nat)
  | .mk _ _ ml _ _ _ => ml

def FieldDesc.miter : FieldDesc → List (String × Nat)
  | .mk _ _ _ mi _ _ => mi

def FieldDesc.parent_index : FieldDesc → Nat
  | .mk _ _ _ _ p _ => p

def FieldDesc.members : FieldDesc → List FieldDesc
  | .mk _ _ _ _ _ ms => ms

instance : Inhabited FieldDesc := ⟨.mk .Null "" [] [] 0 []⟩

/-- Number of FieldDesc nodes describing this node, inclusive
(dataimpl.h: 1u + (members.empty() ? mlookup.size() : 0u)). -/
def FieldDesc.size (d : FieldDesc) : Nat :=
  1 + (if d.members.isEmpty then d.mlookup.length else 0)

theorem FieldDesc.size_pos (d : FieldDesc) : 0 < d.size := by
  unfold FieldDesc.size; omega

mutual
/-- Discriminated payload of a storage cell (the aligned_union in dataimpl.h
FieldStorage).  Arrays keep the runtime type tag of shared_array<const void>;
an array of Values (ArrayType::Value) holds the element handles, any other
array is carried with its tag and an opaque list of element bytes. -/
inductive SVal : Type where
  | vNull : SVal
  | vBool (b : Bool) : SVal
  | vInt (i : Int) : SVal
  | vUInt (n : Nat) : SVal
  | vReal (r : ℚ) : SVal
  | vStr (s : String) : SVal
  | vArr (t : ArrayType) (raw : List Nat) : SVal
  | vArrV (elems : List IVal) : SVal
  | vComp (w : IVal) : SVal

/-- One storage cell (dataimpl.h FieldStorage): StoreType tag, payload and the
valid bit. -/
inductive FieldStorage : Type where
  | mk (code : StoreType) (val : SVal) (valid : Bool) : FieldStorage

/-- An IValue: either the empty handle, or a cursor (descriptor array, storage
cell array, index of the current node) into a StructTop. -/
inductive IVal : Type where
  | empty : IVal
  | handle (descs : List FieldDesc) (cells : List FieldStorage) (idx : Nat) : IVal
end

def FieldStorage.code : FieldStorage → StoreType
  | .mk c _ _ => c

def FieldStorage.val : FieldStorage → SVal
  | .mk _ v _ => v

def FieldStorage.valid : FieldStorage → Bool
  | .mk _ _ b => b

/-- Replace the valid bit, keeping tag and payload. -/
def FieldStorage.withValid (c : FieldStorage) (b : Bool) : FieldStorage :=
  .mk c.code c.val b

/-- Zero-initialized cell, as produced by resizing StructTop::members
(StoreType Null, zero payload bytes, valid=false). -/
def zeroCell : FieldStorage := .mk .Null .vNull false

instance : Inhabited FieldStorage := ⟨zeroCell⟩

@[simp] theorem FieldStorage.eta (c : FieldStorage) :
    FieldStorage.mk c.code c.val c.valid = c := by
  cases c
  rfl

@[simp] theorem FieldStorage.code_mk (c : StoreType) (v : SVal) (b : Bool) :
    (FieldStorage.mk c v b).code = c := rfl

@[simp] theorem FieldStorage.val_mk (c : StoreType) (v : SVal) (b : Bool) :
    (FieldStorage.mk c v b).val = v := rfl

@[simp] theorem FieldStorage.valid_mk (c : StoreType) (v : SVal) (b : Bool) :
    (FieldStorage.mk c v b).valid = b := rfl

/-- Hidden management of an allocated Struct (dataimpl.h StructTop): the flat
descriptor array and the parallel cell array. -/
structure StructTop : Type where
  descs : List FieldDesc
  cells : List FieldStorage

/-- Descriptor node a handle (tree, index) points at. -/
def StructTop.descAt (t : StructTop) (idx : Nat) : FieldDesc :=
  t.descs.getD idx default

/-- Storage cell a handle (tree, index) points at. -/
def StructTop.cellAt (t : StructTop) (idx : Nat) : FieldStorage :=
  t.cells.getD idx zeroCell

/-- Subtree size of the node a handle points at. -/
def StructTop.sizeAt (t : StructTop) (idx : Nat) : Nat :=
  (t.descAt idx).size

/-- FieldStorage::init (data.cpp): initialize a cell according to its
descriptor node. -/
def FieldStorage.init (d : FieldDesc) : FieldStorage :=
  if d.code.kind = .Null ∨ d.code = .Struct then
    .mk .Null .vNull false
  else if d.code.isarray then
    .mk .Array (.vArr .Null []) false
  else
    match d.code.kind with
    | .String => .mk .String (.vStr "") false
    | .Compound => .mk .Compound (.vComp .empty) false
    | .Integer =>
        if d.code.isunsigned then .mk .UInteger (.vUInt 0) false
        else .mk .Integer (.vInt 0) false
    | .Bool => .mk .Bool (.vBool false) false
    | .Real => .mk .Real (.vReal 0) false
    | .Null => zeroCell

/-- StoreType a freshly initialized cell carries. -/
def initCode (d : FieldDesc) : StoreType := (FieldStorage.init d).code

/-- The ValueBase constructor taking a descriptor (data.cpp ValueBase::ValueBase):
resize the member vector to desc->size() (zero-initialized cells), init the
root, and when the root is a Struct init the cell at every mlookup offset. -/
def ValueBase.buildCells (descs : List FieldDesc) : List FieldStorage :=
  match descs with
  | [] => []
  | d0 :: _ =>
    let base := (List.replicate d0.size zeroCell).set 0 (FieldStorage.init d0)
    if d0.code = .Struct then
      d0.mlookup.foldl
        (fun cs p => cs.set p.2 (FieldStorage.init (descs.getD p.2 default))) base
    else base

/-- Inner loop of MValue::assign (data.cpp, the StoreType::Null case "copy
entire sub-structure").  Reads the source cell at sbase+bit, writes the
destination cell at dbase+bit.  Note the source increments bit inside the
non-Null switch cases in addition to the for-loop header increment, so a
non-Null cell advances bit by 2.  Returns the updated cells and the final bit. -/
def MValue.assignInner (scells : List FieldStorage) (sbase : Nat)
    (dcells : List FieldStorage) (dbase : Nat)
    (bit endd : Nat) : List FieldStorage × Nat :=
  if _h : bit < endd then
    let s := scells.getD (sbase + bit) zeroCell
    let d := dcells.getD (dbase + bit) zeroCell
    if d.code = .Null then
      -- skip sub-struct nodes (bit advanced only by the for-loop header)
      MValue.assignInner scells sbase
        (dcells.set (dbase + bit) (d.withValid true)) dbase (bit + 1) endd
    else
      -- every non-Null case copies the payload, and increments bit inside the
      -- switch in addition to the for-loop header increment
      MValue.assignInner scells sbase
        (dcells.set (dbase + bit) (.mk d.code s.val true)) dbase (bit + 2) endd
  else (dcells, bit)
termination_by endd - bit

theorem MValue.assignInner_bit_lt (scells : List FieldStorage) (sbase : Nat)
    (dcells : List FieldStorage) (dbase : Nat) (bit endd : Nat)
    (h : bit < endd) :
    bit < (MValue.assignInner scells sbase dcells dbase bit endd).2 := by
  have hgen : ∀ n b dc, endd - b ≤ n →
      b ≤ (MValue.assignInner scells sbase dc dbase b endd).2 := by
    intro n
    induction n with
    | zero =>
        intro b dc hb
        unfold MValue.assignInner
        have hnb : ¬ b < endd := by omega
        simp [hnb]
    | succ n ih =>
        intro b dc hb
        unfold MValue.assignInner
        by_cases hlt : b < endd
        · simp only [hlt, dif_pos]
          split
          · exact le_trans (by omega) (ih (b+1) _ (by omega))
          · exact le_trans (by omega) (ih (b+2) _ (by omega))
        · simp [hlt]
  unfold MValue.assignInner
  simp only [h, dif_pos]
  split
  · exact lt_of_lt_of_le (by omega) (hgen endd (bit+1) _ (by omega))
  · exact lt_of_lt_of_le (by omega) (hgen endd (bit+2) _ (by omega))

/-- Outer loop of MValue::assign (data.cpp): skip non-valid source cells, copy
valid leaves (marking them valid), and on a valid Struct anchor (StoreType
Null) run the inner sub-structure loop. -/
def MValue.assignOuter (ddescs : List FieldDesc) (dbase : Nat)
    (scells : List FieldStorage) (sbase : Nat)
    (dcells : List FieldStorage)
    (bit endd : Nat) : List FieldStorage :=
  if _h : bit < endd then
    let s := scells.getD (sbase + bit) zeroCell
    if s.valid = false then
      MValue.assignOuter ddescs dbase scells sbase dcells (bit + 1) endd
    else
      let d := dcells.getD (dbase + bit) zeroCell
      if d.code = .Null then
        -- valid Struct anchor: copy the entire sub-structure
        let sdesc := ddescs.getD (dbase + bit) default
        let r := MValue.assignInner scells sbase
          (dcells.set (dbase + bit) (d.withValid true)) dbase bit (bit + sdesc.size)
        MValue.assignOuter ddescs dbase scells sbase r.1 r.2 endd
      else
        -- the Real/Bool/Integer/UInteger, String, Array and Compound cases of
        -- the source switch all copy the source payload into the destination
        -- cell; the model carries every payload as an SVal, so one branch
        MValue.assignOuter ddescs dbase scells sbase
          (dcells.set (dbase + bit) (.mk d.code s.val true)) (bit + 1) endd
  else dcells
termination_by endd - bit
decreasing_by
  · omega
  · have := MValue.assignInner_bit_lt scells sbase
      (dcells.set (dbase + bit) ((dcells.getD (dbase + bit) zeroCell).withValid true))
      dbase bit (bit + (ddescs.getD (dbase + bit) default).size)
      (by have := (ddescs.getD (dbase + bit) default).size_pos; omega)
    omega
  · omega

/-- ValueBase::clone (data.cpp): build a fresh StructTop over the current
node's descriptor subtree (the aliasing shared_ptr keeps the same flat
descriptor array, so the new tree's descriptors are the slice starting at the
node), then assign from the source.  The assign gate passes trivially because
both handles carry the identical descriptor pointer. -/
def ValueBase.clone (t : StructTop) (idx : Nat) : StructTop :=
  let slice := (t.descs.drop idx).take (t.sizeAt idx)
  let fresh := ValueBase.buildCells slice
  { descs := slice,
    cells := MValue.assignOuter slice 0 t.cells idx fresh 0
      ((slice.getD 0 default).size) }

/-- MValue::freeze (data.cpp): requires the handle to be the sole owner of the
StructTop (shared_ptr use_count, passed explicitly); on success the storage is
moved, not copied. -/
def MValue.freeze (t : StructTop) (use_count : Nat) : Except String StructTop :=
  if use_count > 1 then
    .error "cannot freeze MValue with multiple refs"
  else
    .ok t

/-- IValue::thaw (data.cpp): move the storage when solely owned, deep-clone
otherwise. -/
def IValue.thaw (t : StructTop) (idx : Nat) (use_count : Nat) : StructTop :=
  if use_count == 1 then t else ValueBase.clone t idx

/-- The composition m.clone().freeze().thaw() of the spec: the fresh clone is
the sole owner of its StructTop, so both freeze and thaw see use_count 1. -/
def cloneFreezeThaw (t : StructTop) (idx : Nat) : Except String StructTop :=
  (MValue.freeze (ValueBase.clone t idx) 1).map (fun f => IValue.thaw f 0 1)

/-- MValue::mark (data.cpp): set only this cell's valid bit. -/
def MValue.mark (t : StructTop) (idx : Nat) (v : Bool) : StructTop :=
  { t with cells := t.cells.set idx ((t.cellAt idx).withValid v) }

/-- Parent walk of MValue::unmark (data.cpp).  Faithful to the source order of
operations: pdesc is stepped back by its own parent_index first, and pstore is
then stepped back by the parent_index read from the already-moved pdesc.  The
walk stops when pdesc reaches the tree root.  (A non-root node whose
parent_index is 0 would loop forever in the source; the model stops there, a
situation excluded for descriptors built by the library.) -/
def MValue.unmarkParents (descs : List FieldDesc) (cells : List FieldStorage)
    (pdescIdx pstoreIdx : Nat) : List FieldStorage :=
  if pdescIdx = 0 then cells
  else
    let delta := (descs.getD pdescIdx default).parent_index
    if _h : delta = 0 then cells
    else
      let pdescIdx2 := pdescIdx - delta
      let delta2 := (descs.getD pdescIdx2 default).parent_index
      let pstoreIdx2 := pstoreIdx - delta2
      MValue.unmarkParents descs
        (cells.set pstoreIdx2 ((cells.getD pstoreIdx2 zeroCell).withValid false))
        pdescIdx2 pstoreIdx2
termination_by pdescIdx
decreasing_by omega

/-- MValue::unmark (data.cpp): clear this cell's valid bit; with children=true
also clear every cell of the size-bounded child range; with parents=true run
the parent walk. -/
def MValue.unmark (t : StructTop) (idx : Nat) (parents children : Bool) : StructTop :=
  let cells0 := t.cells.set idx ((t.cellAt idx).withValid false)
  let cells1 :=
    if children ∧ (t.descAt idx).size > 1 then
      (List.range (t.descAt idx).size).foldl
        (fun cs b => cs.set (idx + b) ((cs.getD (idx + b) zeroCell).withValid false))
        cells0
    else cells0
  let cells2 :=
    if parents then MValue.unmarkParents t.descs cells1 idx idx else cells1
  { t with cells := cells2 }

/-! String parsing.  epicsParseInt64 / epicsParseUInt64 / epicsParseDouble are
external EPICS functions (epicsStdlib, not part of this repository).  Modelled
from the spec: base-prefix-aware integer parsing (0x hex, leading-0 octal,
decimal) and default float parsing, consuming the whole string, failing
otherwise. -/

/-- Value of one digit character in the given base. -/
def digitVal (base : Nat) (c : Char) : Option Nat :=
  let v :=
    if '0' ≤ c ∧ c ≤ '9' then some (c.toNat - '0'.toNat)
    else if 'a' ≤ c ∧ c ≤ 'f' then some (c.toNat - 'a'.toNat + 10)
    else if 'A' ≤ c ∧ c ≤ 'F' then some (c.toNat - 'A'.toNat + 10)
    else none
  match v with
  | some d => if d < base then some d else none
  | none => none

/-- Parse a non-empty digit string in the given base. -/
def parseNatBase (base : Nat) (cs : List Char) : Option Nat :=
  if cs.isEmpty then none
  else
    cs.foldl
      (fun acc c =>
        match acc, digitVal base c with
        | some a, some d => some (a * base + d)
        | _, _ => none)
      (some 0)

/-- Magnitude parse with C base-0 prefix handling: 0x/0X hex, leading-0 octal,
else decimal. -/
def parseNatBase0 : List Char → Option Nat
  | '0' :: 'x' :: rest => parseNatBase 16 rest
  | '0' :: 'X' :: rest => parseNatBase 16 rest
  | ['0'] => some 0
  | '0' :: rest => parseNatBase 8 rest
  | cs => parseNatBase 10 cs

/-- Modelled from the spec: epicsParseInt64 with base 0 (external). -/
def epicsParseInt64 (s : String) : Option Int :=
  let core : List Char → Bool → Option Int := fun cs neg =>
    match parseNatBase0 cs with
    | some m =>
        let v : Int := if neg then -(m : Int) else (m : Int)
        if -(2^63) ≤ v ∧ v < 2^63 then some v else none
    | none => none
  match s.data with
  | '-' :: rest => core rest true
  | '+' :: rest => core rest false
  | cs => core cs false

/-- Modelled from the spec: epicsParseUInt64 with base 0 (external).  A leading
minus wraps modulo 2^64 as strtoull does. -/
def epicsParseUInt64 (s : String) : Option Nat :=
  let core : List Char → Bool → Option Nat := fun cs neg =>
    match parseNatBase0 cs with
    | some m =>
        if m < 2^64 then some (if neg then (2^64 - m) % 2^64 else m) else none
    | none => none
  match s.data with
  | '-' :: rest => core rest true
  | '+' :: rest => core rest false
  | cs => core cs false

/-- Parse a decimal fraction: integer digits, optional point and fraction
digits (at least one digit in total), optional decimal exponent.  Built with
Nat arithmetic and a single mkRat so concrete parses evaluate. -/
def parseDecimalRat (cs : List Char) : Option ℚ :=
  let digits := fun (l : List Char) =>
    l.takeWhile (fun c => decide ('0' ≤ c ∧ c ≤ '9'))
  let ip := digits cs
  let rest1 := cs.drop ip.length
  let fp :=
    match rest1 with
    | '.' :: r => (digits r, r.drop (digits r).length)
    | _ => ([], rest1)
  let fdigits := fp.1
  let rest2 := fp.2
  if ip.isEmpty ∧ fdigits.isEmpty then none
  else
    let mantN : Nat :=
      (ip ++ fdigits).foldl (fun a c => a * 10 + (c.toNat - '0'.toNat)) 0
    let flen := fdigits.length
    match rest2 with
    | [] => some (mkRat (mantN : Int) (10 ^ flen))
    | 'e' :: er | 'E' :: er =>
        let eparse : List Char → Bool → Option ℚ := fun ds neg =>
          match parseNatBase 10 ds with
          | some e =>
              some (if neg then mkRat (mantN : Int) (10 ^ (flen + e))
                    else mkRat ((mantN * 10 ^ e : Nat) : Int) (10 ^ flen))
          | none => none
        match er with
        | '-' :: ds => eparse ds true
        | '+' :: ds => eparse ds false
        | ds => eparse ds false
    | _ => none

/-- Modelled from the spec: epicsParseDouble (external), default C float
parsing; doubles are modelled as rationals. -/
def epicsParseDouble (s : String) : Option ℚ :=
  match s.data with
  | '-' :: rest => (parseDecimalRat rest).map (fun r => -r)
  | '+' :: rest => parseDecimalRat rest
  | cs => parseDecimalRat cs

/-- Errors raised by conversions (pvxs/data.h NoField / NoConvert exceptions,
declared in data.cpp). -/
inductive CErr : Type where
  | NoField
  | NoConvert
deriving DecidableEq, Repr

/-- A value written through the destination pointer of copyOut, tagged with
the StoreType interpretation the source used for the write (which
reinterpret_cast it wrote through). -/
structure Written : Type where
  as : StoreType
  val : SVal

/-- C-style cast int64 → uint64. -/
def castIntToUInt64 (i : Int) : Nat := (i % (2^64)).toNat

/-- C-style cast uint64 → int64. -/
def castUInt64ToInt (n : Nat) : Int :=
  if n % 2^64 < 2^63 then (n % 2^64 : Int) else (n % 2^64 : Int) - 2^64

/-- C-style cast double → int64 (truncation toward zero; out-of-range
behaviour is undefined in C and modelled as plain truncation). -/
def castRatToInt (r : ℚ) : Int := r.num / (r.den : Int)

/-- Decimal printing of a double (ostream formatting abstracted; no verified
claim depends on the exact format). -/
def realToString (r : ℚ) : String := toString r

/-- copyOutScalar template of data.cpp for an int64 source. -/
def copyOutScalarInt (src : Int) : StoreType → Option Written
  | .Real => some ⟨.Real, .vReal (src : ℚ)⟩
  | .Integer => some ⟨.Integer, .vInt src⟩
  | .UInteger => some ⟨.UInteger, .vUInt (castIntToUInt64 src)⟩
  | .Bool => some ⟨.Bool, .vBool (decide (src ≠ 0))⟩
  | .String => some ⟨.String, .vStr (toString src)⟩
  | _ => none

/-- copyOutScalar template of data.cpp for a uint64 source. -/
def copyOutScalarUInt (src : Nat) : StoreType → Option Written
  | .Real => some ⟨.Real, .vReal (src : ℚ)⟩
  | .Integer => some ⟨.Integer, .vInt (castUInt64ToInt src)⟩
  | .UInteger => some ⟨.UInteger, .vUInt src⟩
  | .Bool => some ⟨.Bool, .vBool (decide (src ≠ 0))⟩
  | .String => some ⟨.String, .vStr (toString src)⟩
  | _ => none

/-- copyOutScalar template of data.cpp for a double source. -/
def copyOutScalarReal (src : ℚ) : StoreType → Option Written
  | .Real => some ⟨.Real, .vReal src⟩
  | .Integer => some ⟨.Integer, .vInt (castRatToInt src)⟩
  | .UInteger => some ⟨.UInteger, .vUInt (castIntToUInt64 (castRatToInt src))⟩
  | .Bool => some ⟨.Bool, .vBool (decide (src ≠ 0))⟩
  | .String => some ⟨.String, .vStr (realToString src)⟩
  | _ => none

/-- String-source switch of ValueBase::copyOut at case StoreType::Bool
(data.cpp): note the source accepts "true" and the misspelling "flase". -/
def strToBoolChain (s : String) : Except CErr Written :=
  if s = "true" then .ok ⟨.Bool, .vBool true⟩
  else if s = "flase" then .ok ⟨.Bool, .vBool false⟩
  else .error .NoConvert

/-- String-source switch of ValueBase::copyOut entered at case
StoreType::Real; the case has no break, so a failed parse falls through to the
Bool case. -/
def strToRealChain (s : String) : Except CErr Written :=
  match epicsParseDouble s with
  | some r => .ok ⟨.Real, .vReal r⟩
  | none => strToBoolChain s

/-- String-source switch of ValueBase::copyOut entered at case
StoreType::UInteger; the case has no break, so a failed parse falls through to
the Real case. -/
def strToUIntegerChain (s : String) : Except CErr Written :=
  match epicsParseUInt64 s with
  | some n => .ok ⟨.UInteger, .vUInt n⟩
  | none => strToRealChain s

/-- String-source switch of ValueBase::copyOut entered at case
StoreType::Integer; the case has no break, so a failed parse falls through to
the UInteger case. -/
def strToIntegerChain (s : String) : Except CErr Written :=
  match epicsParseInt64 s with
  | some i => .ok ⟨.Integer, .vInt i⟩
  | none => strToUIntegerChain s

/-- ValueBase::copyOut (data.cpp): read the cell's contents converted to the
requested StoreType.  The result records which interpretation the write used.
A cell whose payload constructor does not match its tag cannot arise from
initialized storage and yields NoConvert. -/
def ValueBase.copyOut (c : FieldStorage) (t : StoreType) : Except CErr Written :=
  match c with
  | .mk code v _ =>
    match code with
    | .Real =>
        match v with
        | .vReal r => match copyOutScalarReal r t with
                      | some w => .ok w
                      | none => .error .NoConvert
        | _ => .error .NoConvert
    | .Integer =>
        match v with
        | .vInt i => match copyOutScalarInt i t with
                     | some w => .ok w
                     | none => .error .NoConvert
        | _ => .error .NoConvert
    | .UInteger =>
        match v with
        | .vUInt n => match copyOutScalarUInt n t with
                      | some w => .ok w
                      | none => .error .NoConvert
        | _ => .error .NoConvert
    | .Bool =>
        match v with
        | .vBool b =>
            match t with
            | .Bool => .ok ⟨.Bool, .vBool b⟩
            | .Integer | .UInteger =>
                -- the source writes through uint64_t* for both requests
                .ok ⟨.UInteger, .vUInt (if b then 1 else 0)⟩
            | .Real => .ok ⟨.Real, .vReal (if b then 1 else 0)⟩
            | .String => .ok ⟨.String, .vStr (if b then "true" else "false")⟩
            | _ => .error .NoConvert
        | _ => .error .NoConvert
    | .String =>
        match v with
        | .vStr s =>
            match t with
            | .String => .ok ⟨.String, .vStr s⟩
            | .Integer => strToIntegerChain s
            | .UInteger => strToUIntegerChain s
            | .Real => strToRealChain s
            | .Bool => strToBoolChain s
            | _ => .error .NoConvert
        | _ => .error .NoConvert
    | .Array =>
        match t with
        | .Array => .ok ⟨.Array, v⟩
        | _ => .error .NoConvert
    | .Compound =>
        match v with
        | .vComp w =>
            if t = .Compound then .ok ⟨.Compound, .vComp w⟩
            else
              match w with
              | .handle ds cs i =>
                  -- automagic deref and delegate
                  match h : cs.get? i with
                  | some cell => ValueBase.copyOut cell t
                  | none => .error .NoField
              | .empty => .error .NoConvert
        | _ => .error .NoConvert
    | .Null => .error .NoConvert
termination_by sizeOf c
decreasing_by
  have hmem : cell ∈ cs := List.get?_mem h
  have h1 : sizeOf cell < sizeOf cs := List.sizeOf_lt_of_mem hmem
  simp only [FieldStorage.mk.sizeOf_spec, SVal.vComp.sizeOf_spec,
    IVal.handle.sizeOf_spec]
  omega

mutual
/-- Structural equality of descriptors, modelling C++ pointer equality tests
between descriptor nodes (pointer-equal nodes are structurally equal). -/
def fdBeq : FieldDesc → FieldDesc → Bool
  | .mk c1 id1 ml1 mi1 p1 ms1, .mk c2 id2 ml2 mi2 p2 ms2 =>
    c1 == c2 && id1 == id2 && ml1 == ml2 && mi1 == mi2 && p1 == p2 &&
      fdBeqList ms1 ms2

/-- Structural equality of descriptor lists. -/
def fdBeqList : List FieldDesc → List FieldDesc → Bool
  | [], [] => true
  | a :: as, b :: bs => fdBeq a b && fdBeqList as bs
  | _, _ => false
end

/-- parseScalar overloads of data.cpp (anonymous namespace). -/
def parseScalarRat (s : String) : Option ℚ := epicsParseDouble s

/-- parseScalar for int64 (data.cpp). -/
def parseScalarInt (s : String) : Option Int := epicsParseInt64 s

/-- parseScalar for uint64 (data.cpp). -/
def parseScalarUInt (s : String) : Option Nat := epicsParseUInt64 s

/-- copyInScalar template of data.cpp for an int64 destination; the input is
the (StoreType, payload) pair the caller passed. -/
def copyInScalarInt (ty : StoreType) (x : SVal) : Option Int :=
  match ty, x with
  | .Real, .vReal r => some (castRatToInt r)
  | .Integer, .vInt i => some i
  | .UInteger, .vUInt n => some (castUInt64ToInt n)
  | .Bool, .vBool b => some (if b then 1 else 0)
  | .String, .vStr s => parseScalarInt s
  | _, _ => none

/-- copyInScalar template of data.cpp for a uint64 destination. -/
def copyInScalarUInt (ty : StoreType) (x : SVal) : Option Nat :=
  match ty, x with
  | .Real, .vReal r => some (castIntToUInt64 (castRatToInt r))
  | .Integer, .vInt i => some (castIntToUInt64 i)
  | .UInteger, .vUInt n => some n
  | .Bool, .vBool b => some (if b then 1 else 0)
  | .String, .vStr s => parseScalarUInt s
  | _, _ => none

/-- copyInScalar template of data.cpp for a double destination. -/
def copyInScalarReal (ty : StoreType) (x : SVal) : Option ℚ :=
  match ty, x with
  | .Real, .vReal r => some r
  | .Integer, .vInt i => some (i : ℚ)
  | .UInteger, .vUInt n => some (n : ℚ)
  | .Bool, .vBool b => some (if b then 1 else 0)
  | .String, .vStr s => parseScalarRat s
  | _, _ => none

/-- MValue::copyIn (data.cpp): write data of StoreType ty with payload x into
the cell, converting to the cell's storage type; on success the cell is marked
valid (the mark() call at the end of copyIn). -/
def MValue.copyIn (d : FieldDesc) (c : FieldStorage) (ty : StoreType) (x : SVal) :
    Except CErr FieldStorage :=
  match c.code with
  | .Real =>
      match copyInScalarReal ty x with
      | some r => .ok (.mk .Real (.vReal r) true)
      | none => .error .NoConvert
  | .Integer =>
      match copyInScalarInt ty x with
      | some i => .ok (.mk .Integer (.vInt i) true)
      | none => .error .NoConvert
  | .UInteger =>
      match copyInScalarUInt ty x with
      | some n => .ok (.mk .UInteger (.vUInt n) true)
      | none => .error .NoConvert
  | .Bool =>
      match ty, x with
      | .Bool, .vBool b => .ok (.mk .Bool (.vBool b) true)
      | .Integer, .vInt i => .ok (.mk .Bool (.vBool (decide (i ≠ 0))) true)
      | .UInteger, .vUInt n => .ok (.mk .Bool (.vBool (decide (n ≠ 0))) true)
      | .String, .vStr s =>
          if s = "true" then .ok (.mk .Bool (.vBool true) true)
          else if s = "false" then .ok (.mk .Bool (.vBool false) true)
          else .error .NoConvert
      | _, _ => .error .NoConvert
  | .String =>
      match ty, x with
      | .String, .vStr s => .ok (.mk .String (.vStr s) true)
      | .Integer, .vInt i => .ok (.mk .String (.vStr (toString i)) true)
      | .UInteger, .vUInt n => .ok (.mk .String (.vStr (toString n)) true)
      | .Real, .vReal r => .ok (.mk .String (.vStr (realToString r)) true)
      | .Bool, .vBool b =>
          .ok (.mk .String (.vStr (if b then "true" else "false")) true)
      | _, _ => .error .NoConvert
  | .Array =>
      match ty, x with
      | .Array, .vArr t raw =>
          if t = .Null ∨ raw.isEmpty then
            .ok (.mk .Array (.vArr .Null []) true)
          else if d.code.byte = t.byte then
            .ok (.mk .Array (.vArr t raw) true)
          else .error .NoConvert
      | .Array, .vArrV elems =>
          if elems.isEmpty then
            .ok (.mk .Array (.vArr .Null []) true)
          else if d.code.kind = .Compound then
            if d.code ≠ .AnyA then
              if elems.all (fun v =>
                  match v with
                  | .empty => true
                  | .handle ds _ i => fdBeq (ds.getD i default)
                      (d.members.getD 0 default)) then
                .ok (.mk .Array (.vArrV elems) true)
              else .error .NoConvert
            else .ok (.mk .Array (.vArrV elems) true)
          else .error .NoConvert
      | _, _ => .error .NoConvert
  | .Compound =>
      if d.code = .Any then
        match ty, x with
        | .Compound, .vComp w => .ok (.mk .Compound (.vComp w) true)
        | _, _ => .error .NoConvert
      else .error .NoConvert
  | .Null => .error .NoConvert

/-- Reference-counted typed array (src/pvxs/sharedArray.h); only the element
count matters for bounds checking; a reference into the array is modelled by
its index. -/
structure shared_array : Type where
  size : Nat

/-- shared_array::at (sharedArray.h lines 316-321): bounds-checked element
access.  The source checks i > _size, so the one-past-the-end index passes. -/
def shared_array.atRef (a : shared_array) (i : Nat) : Except String Nat :=
  if i > a.size then .error "Index out of bounds" else .ok i

/-! Path traversal (ValueBase::traverse, data.cpp lines 297-421). -/

/-- std::string::find_first_of: index of the first character of cs at or after
pos that belongs to set, or none (npos). -/
def findFirstOf (cs : List Char) (set : List Char) (pos : Nat) : Option Nat :=
  if _h : pos < cs.length then
    if set.contains (cs.getD pos ' ') then some pos
    else findFirstOf cs set (pos + 1)
  else none
termination_by cs.length - pos

theorem findFirstOf_ge (cs set : List Char) (pos : Nat) :
    ∀ r, findFirstOf cs set pos = some r → pos ≤ r := by
  have hgen : ∀ n p r, cs.length - p ≤ n → findFirstOf cs set p = some r → p ≤ r := by
    intro n
    induction n with
    | zero =>
        intro p r hb hf
        unfold findFirstOf at hf
        have hnp : ¬ p < cs.length := by omega
        simp [hnp] at hf
    | succ n ih =>
        intro p r hb hf
        unfold findFirstOf at hf
        by_cases hp : p < cs.length
        · simp only [hp, dif_pos] at hf
          split at hf
          · injection hf with he
            omega
          · have := ih (p+1) r (by omega) hf
            omega
        · simp [hp] at hf
  intro r hf
  exact hgen cs.length pos r (by omega) hf

/-- std::string::substr(pos, len) on the character list, as a String for
mlookup lookup. -/
def substrS (cs : List Char) (pos len : Nat) : String :=
  String.mk ((cs.drop pos).take len)

/-- std::map::find on the mlookup association list. -/
def mfind (ml : List (String × Nat)) (k : String) : Option Nat :=
  (ml.find? (fun p => p.1 == k)).map (fun p => p.2)

/-- store->as`<IValue>`() on a cell holding a Compound payload; any other
payload would be a reinterpretation of unrelated bytes and is modelled as the
empty handle (unreachable for cells initialized by the library). -/
def FieldStorage.compVal (c : FieldStorage) : IVal :=
  match c.val with
  | .vComp w => w
  | _ => .empty

/-- The test fld.desc == &desc->members[off] of the Union branch of traverse,
with pointer equality modelled structurally. -/
def fldSelectedIs (fld : IVal) (node : FieldDesc) : Bool :=
  match fld with
  | .empty => false
  | .handle ds _ i => fdBeq (ds.getD i default) node

/-- Size of the shared_array held in an Array cell
(elems.length for an array of Values). -/
def SVal.arrLen : SVal → Nat
  | .vArr _ raw => raw.length
  | .vArrV elems => elems.length
  | _ => 0

/-- The while loop of ValueBase::traverse (data.cpp), one recursive step per
iteration.  The cursor is an IVal; modify is true when traversing from an
MValue.  Where the source would loop forever on a descriptor holding an empty
member name (impossible for descriptors built by the library, whose field
names match [A-Za-z0-9_]+), the model returns the empty handle; these spots
are guarded by pos-progress tests. -/
def ValueBase.traverseLoop (v : IVal) (expr : List Char) (modify : Bool)
    (pos : Nat) : IVal :=
  match v with
  | .empty => .empty
  | .handle ds cs idx =>
    if hpos : pos < expr.length then
      let d := ds.getD idx default
      let c := cs.getD idx zeroCell
      if expr.getD pos ' ' = '<' then
        -- ascend to parent, or the empty handle at the tree root
        if idx ≠ 0 then
          ValueBase.traverseLoop (.handle ds cs (idx - d.parent_index)) expr
            modify (pos + 1)
        else .empty
      else if d.code = .Struct then
        let sep := (findFirstOf expr ['<', '[', '-'] pos).getD expr.length
        match (if 0 < sep then mfind d.mlookup (substrS expr pos (sep - pos))
               else none) with
        | some off =>
            if hprog : pos < sep then
              ValueBase.traverseLoop (.handle ds cs (idx + off)) expr modify sep
            else .empty
        | none => .empty
      else if modify then
        -- descending a compound interior from an MValue would subvert const-ness
        .empty
      else if d.code = .Union ∨ d.code = .Any then
        if expr.length - pos ≥ 3 ∧ expr.getD pos ' ' = '-' ∧
            expr.getD (pos + 1) ' ' = '>' then
          if d.code = .Any then
            ValueBase.traverseLoop c.compVal expr modify (pos + 2)
          else
            let sep := (findFirstOf expr ['<', '[', '-', '.'] (pos + 2)).getD
              expr.length
            match mfind d.mlookup (substrS expr (pos + 2) (sep - (pos + 2))) with
            | some off =>
                let fld := c.compVal
                if fldSelectedIs fld (d.members.getD off default) then
                  if hprog : pos < sep then
                    ValueBase.traverseLoop fld expr modify sep
                  else .empty
                else .empty
            | none =>
                -- member not found: the source falls out of the if and loops
                -- again with pos already moved past the arrow
                ValueBase.traverseLoop (.handle ds cs idx) expr modify (pos + 2)
        else .empty
      else if d.code.isarray ∧ d.code.kind = .Compound then
        match hf : findFirstOf expr [']'] pos with
        | some sep =>
            if expr.getD pos ' ' = '[' ∧ sep - pos ≥ 2 then
              match epicsParseUInt64 (substrS expr (pos + 1) (sep - 1 - pos)) with
              | some index =>
                  match c.val with
                  | .vArrV elems =>
                      if index < elems.length then
                        ValueBase.traverseLoop (elems.getD index .empty) expr
                          modify (sep + 1)
                      else .empty
                  | _ => .empty
              | none => .empty
            else .empty
        | none => .empty
      else .empty
    else v
termination_by expr.length - pos
decreasing_by
  · omega
  · omega
  · omega
  · omega
  · omega
  · have := findFirstOf_ge expr [']'] pos sep hf
    omega

/-- ValueBase::operator[] entry point: run the traverse loop from position 0. -/
def ValueBase.traverse (v : IVal) (expr : String) (modify : Bool) : IVal :=
  ValueBase.traverseLoop v expr.data modify 0

/-! Client Info (GET_FIELD) operation state machine
(src/clientintrospect.cpp).  All events below run on the single I/O executor,
so an interleaving is a sequence of executor closures.  The surrounding
machinery that is not in the provided sources (OperationBase, Channel,
Connection::opByIOID insertion when an operation is created) is modelled from
the spec, sections 4.5-4.6. -/

/-- Operation discriminator (Operation::Info test in handle_GET_FIELD). -/
inductive OpKind : Type where
  | Info
  | Get
  | Put
  | Monitor
deriving DecidableEq, Repr

/-- InfoOp::state_t (clientintrospect.cpp). -/
inductive InfoState : Type where
  | Connecting
  | Waiting
  | Done
deriving DecidableEq, Repr

/-- One client operation: its ioid, kind, state, whether the user result
callback (InfoOp::done) is still held, whether its ioid is present in
Connection::opByIOID, plus a ghost count of callback invocations. -/
structure InfoRec : Type where
  ioid : Nat
  kind : OpKind
  st : InfoState
  hasDone : Bool
  inConn : Bool
  calls : Nat
deriving DecidableEq, Repr

instance : Inhabited InfoRec := ⟨⟨0, .Info, .Connecting, false, false, 0⟩⟩

/-- Executor-confined client state: the set of live operations. -/
structure ClientSys : Type where
  ops : List InfoRec
deriving DecidableEq, Repr

/-- Executor events interleaved for claim C8: operation creation/sending
(InfoOp::createOp plus the opByIOID insertions, the latter modelled from the
spec), an incoming GET_FIELD reply (Connection::handle_GET_FIELD), and
Operation::cancel (InfoOp::cancel's executor closure). -/
inductive CEvent : Type where
  | createOp (i : Nat)
  | replyGF (ioid : Nat) (ok : Bool)
  | cancel (i : Nat)

/-- Update the operation at a list position. -/
def ClientSys.upd (s : ClientSys) (i : Nat) (f : InfoRec → InfoRec) : ClientSys :=
  { ops := s.ops.set i (f (s.ops.getD i default)) }

/-- InfoOp::createOp: only acts in Connecting; sends GET_FIELD and moves to
Waiting.  The registration of the ioid in opByIOID is modelled from the spec
(it happens in Channel::createOperations, not in the provided sources). -/
def ClientSys.applyCreate (s : ClientSys) (i : Nat) : ClientSys :=
  s.upd i (fun o =>
    if o.st = .Connecting then { o with st := .Waiting, inConn := true } else o)

/-- Connection::handle_GET_FIELD: look up the ioid in opByIOID; discard the
reply when the ioid is unknown or the operation is not an Info; otherwise
erase the ioid from the maps, discard if the operation is no longer Waiting,
else move to Done and invoke the callback (once, by moving it out) or stash
the result. -/
def ClientSys.applyReply (s : ClientSys) (ioid : Nat) : ClientSys :=
  match s.ops.findIdx? (fun o => o.ioid == ioid && o.inConn) with
  | none => s
  | some i =>
      if (s.ops.getD i default).kind ≠ OpKind.Info then s
      else if (s.ops.getD i default).st ≠ .Waiting then
        s.upd i (fun o => { o with inConn := false })
      else
        s.upd i (fun o =>
          { o with inConn := false, st := .Done, hasDone := false,
                   calls := o.calls + (if o.hasDone then 1 else 0) })

/-- InfoOp::cancel's executor closure: when Waiting, send DESTROY_REQUEST and
erase the ioid from the maps; in every state, become Done and move the user
callback out without invoking it. -/
def ClientSys.applyCancel (s : ClientSys) (i : Nat) : ClientSys :=
  s.upd i (fun o =>
    { o with inConn := if o.st = .Waiting then false else o.inConn,
             st := .Done, hasDone := false })

/-- Execute one executor event. -/
def ClientSys.stepEv (s : ClientSys) : CEvent → ClientSys
  | .createOp i => s.applyCreate i
  | .replyGF ioid _ => s.applyReply ioid
  | .cancel i => s.applyCancel i

/-- Execute a sequence of executor events. -/
def ClientSys.runEvents (s : ClientSys) (evs : List CEvent) : ClientSys :=
  evs.foldl ClientSys.stepEv s

/-- Initial system: one fresh Info operation per requested callback flag;
no callback has ever fired. -/
def ClientSys.init (specs : List (Nat × Bool)) : ClientSys :=
  { ops := specs.map (fun p =>
      { ioid := p.1, kind := .Info, st := .Connecting, hasDone := p.2,
        inConn := false, calls := 0 }) }

/-- A GET_FIELD reply is stale for the current state: ioid unknown in
opByIOID, owned by a non-Info operation, or its operation no longer Waiting. -/
def ClientSys.staleReply (s : ClientSys) (ioid : Nat) : Bool :=
  match s.ops.findIdx? (fun o => o.ioid == ioid && o.inConn) with
  | none => true
  | some i =>
      (s.ops.getD i default).kind ≠ OpKind.Info ∨
        (s.ops.getD i default).st ≠ .Waiting

/-- Observable per-operation view: state, callback-invocation count, callback
presence (everything except the connection-map bookkeeping). -/
def ClientSys.opsView (s : ClientSys) : List (InfoState × Nat × Bool) :=
  s.ops.map (fun o => (o.st, o.calls, o.hasDone))

/-- The kind family test of the MValue::assign gate (data.cpp lines 584-589). -/
def assignKindOk (c : TypeCode) : Prop :=
  c.kind = .Integer ∨ c.kind = .Real ∨ c.kind = .String ∨ c.kind = .Bool

instance (c : TypeCode) : Decidable (assignKindOk c) := by
  unfold assignKindOk
  infer_instance

/-- MValue::assign (data.cpp lines 582-672), gate plus copy loop.  C++ pointer
equality of the two descriptor pointers is passed explicitly as descPtrEq
(pointer-equal descriptors are the same node of the same flat array). -/
def MValue.assign (dt : StructTop) (didx : Nat) (st : StructTop) (sidx : Nat)
    (descPtrEq : Bool) : Except String StructTop :=
  let dcode := (dt.descAt didx).code
  let scode := (st.descAt sidx).code
  let loopCells := MValue.assignOuter dt.descs didx st.cells sidx dt.cells 0
    (dt.descAt didx).size
  let loop : StructTop := { dt with cells := loopCells }
  if descPtrEq = false ∧ dcode = scode ∧ assignKindOk dcode then
    -- allow simple fields
    .ok loop
  else if descPtrEq = false then
    .error "Can only assign same TypeDef"
  else
    .ok loop

/-! Concrete fixtures used by the claim-level theorems. -/

/-- Descriptor of a plain int32 leaf at the given parent distance. -/
def dInt32 (pi : Nat) : FieldDesc := .mk .Int32 "" [] [] pi []

/-- Descriptor of a plain int64 leaf. -/
def dInt64 : FieldDesc := .mk .Int64 "" [] [] 0 []

/-- Root descriptor of a two-member struct { a : int32, b : int32 }. -/
def dRoot2 : FieldDesc :=
  .mk .Struct "" [("a", 1), ("b", 2)] [("a", 1), ("b", 2)] 0 []

/-- Flat descriptor array of struct { a : int32, b : int32 }. -/
def descsT2 : List FieldDesc := [dRoot2, dInt32 1, dInt32 2]

/-- A fully marked value of that struct with a=5, b=7 (the Struct anchor cell
is marked valid too). -/
def srcT2 : StructTop :=
  { descs := descsT2,
    cells := [.mk .Null .vNull true, .mk .Integer (.vInt 5) true,
              .mk .Integer (.vInt 7) true] }

/-- A single-int32 value whose cell stores 5 but is not marked valid. -/
def srcT1 : StructTop :=
  { descs := [dInt32 0], cells := [.mk .Integer (.vInt 5) false] }

/-- Root of struct { m : struct { leaf : int32 } }. -/
def dRootN : FieldDesc :=
  .mk .Struct "" [("m", 1), ("m.leaf", 2)] [("m", 1)] 0 []

/-- The nested struct member m. -/
def dMid : FieldDesc := .mk .Struct "" [("leaf", 1)] [("leaf", 1)] 1 []

/-- Fully marked nested value struct { m { leaf } }. -/
def tNested : StructTop :=
  { descs := [dRootN, dMid, dInt32 1],
    cells := [.mk .Null .vNull true, .mk .Null .vNull true,
              .mk .Integer (.vInt 0) true] }

/-- A single-int32 value handle used as an assignment destination. -/
def dstI32 : StructTop :=
  { descs := [dInt32 0], cells := [.mk .Integer (.vInt 0) false] }

/-- A single-int64 value storing 9, marked valid. -/
def srcI64 : StructTop :=
  { descs := [dInt64], cells := [.mk .Integer (.vInt 9) true] }

/-- A fresh destination value of struct { a : int32, b : int32 }. -/
def dstT2 : StructTop :=
  { descs := descsT2, cells := ValueBase.buildCells descsT2 }

/-- Descriptor of a plain bool leaf. -/
def dBool : FieldDesc := .mk .Bool "" [] [] 0 []

/-! Well-formedness of a handle, as guaranteed for values built by the
library: the node and its subtree lie inside the flat arrays, the cell array
parallels the descriptor array, every cell carries the StoreType its
descriptor initializes, and a Struct root's mlookup covers offsets 1..size-1
(its mlookup holds every descendant, dataimpl.h). -/
def StructTop.wfAt (t : StructTop) (idx : Nat) : Bool :=
  let d := t.descAt idx
  let n := d.size
  decide (idx < t.descs.length) &&
  decide (idx + n ≤ t.descs.length) &&
  decide (t.cells.length = t.descs.length) &&
  (List.range n).all
    (fun j => (t.cellAt (idx + j)).code == initCode (t.descAt (idx + j))) &&
  (d.code == TypeCode.Struct || decide (n = 1)) &&
  (!(d.code == TypeCode.Struct) ||
    (d.mlookup.all (fun p => decide (1 ≤ p.2) && decide (p.2 < n)) &&
     (List.range n).all
       (fun j => decide (j = 0) || d.mlookup.any (fun p => p.2 == j))))

/-- No Struct anchor (storage-Null) cell in the handle's subtree is marked
valid. -/
def StructTop.noValidAnchorAt (t : StructTop) (idx : Nat) : Bool :=
  (List.range (t.sizeAt idx)).all (fun j =>
    !((t.cellAt (idx + j)).code == StoreType.Null) ||
      ((t.cellAt (idx + j)).valid == false))

theorem MValue.assignInner_length (scells : List FieldStorage) (sbase : Nat)
    (dbase : Nat) :
    ∀ (endd : Nat) (n bit : Nat) (dcells : List FieldStorage), endd - bit ≤ n →
    (MValue.assignInner scells sbase dcells dbase bit endd).1.length =
      dcells.length := by
  intro endd n
  induction n with
  | zero =>
      intro bit dcells hb
      unfold MValue.assignInner
      have hnb : ¬ bit < endd := by omega
      simp [hnb]
  | succ n ih =>
      intro bit dcells hb
      unfold MValue.assignInner
      by_cases hlt : bit < endd
      · simp only [hlt, dif_pos]
        split
        · rw [ih (bit+1) _ (by omega)]
          exact List.length_set ..
        · rw [ih (bit+2) _ (by omega)]
          exact List.length_set ..
      · simp [hlt]

theorem MValue.assignOuter_length (ddescs : List FieldDesc) (dbase : Nat)
    (scells : List FieldStorage) (sbase : Nat) :
    ∀ (endd : Nat) (n bit : Nat) (dcells : List FieldStorage), endd - bit ≤ n →
    (MValue.assignOuter ddescs dbase scells sbase dcells bit endd).length =
      dcells.length := by
  intro endd n
  induction n with
  | zero =>
      intro bit dcells hb
      unfold MValue.assignOuter
      have hnb : ¬ bit < endd := by omega
      simp [hnb]
  | succ n ih =>
      intro bit dcells hb
      unfold MValue.assignOuter
      by_cases hlt : bit < endd
      · simp only [hlt, dif_pos]
        by_cases hv : (scells.getD (sbase + bit) zeroCell).valid = false
        · simp only [hv, if_pos]
          exact ih (bit+1) _ (by omega)
        · simp only [hv, if_neg, Bool.not_eq_false]
          split
          · rename_i hc
            have hlt2 := MValue.assignInner_bit_lt scells sbase
              (dcells.set (dbase + bit)
                ((dcells.getD (dbase + bit) zeroCell).withValid true))
              dbase bit (bit + (ddescs.getD (dbase + bit) default).size)
              (by have := (ddescs.getD (dbase + bit) default).size_pos; omega)
            rw [ih _ _ (by omega)]
            rw [MValue.assignInner_length scells sbase dbase _
              (bit + (ddescs.getD (dbase + bit) default).size)
              bit _ (by omega)]
            exact List.length_set ..
          · rw [ih (bit+1) _ (by omega)]
            exact List.length_set ..
      · simp [hlt]

theorem getD_set_ne (l : List FieldStorage) (i j : Nat) (a : FieldStorage)
    (h : i ≠ j) : (l.set i a).getD j zeroCell = l.getD j zeroCell := by
  simp only [List.getD_eq_get?, List.get?_set]
  rw [if_neg h]

theorem MValue.assignOuter_get?_zero (ddescs : List FieldDesc)
    (scells : List FieldStorage) (sbase : Nat) :
    ∀ (endd n bit : Nat) (dcells : List FieldStorage), endd - bit ≤ n →
    (∀ j, bit ≤ j → j < endd → (dcells.getD j zeroCell).code = .Null →
      (scells.getD (sbase + j) zeroCell).valid = false) →
    ∀ k, (MValue.assignOuter ddescs 0 scells sbase dcells bit endd).get? k =
      if bit ≤ k ∧ k < endd ∧ (scells.getD (sbase + k) zeroCell).valid = true then
        (dcells.get? k).map
          (fun d => .mk d.code (scells.getD (sbase + k) zeroCell).val true)
      else dcells.get? k := by
  intro endd n
  induction n with
  | zero =>
      intro bit dcells hb hno k
      unfold MValue.assignOuter
      have hnb : ¬ bit < endd := by omega
      rw [dif_neg hnb, if_neg (by omega)]
  | succ n ih =>
      intro bit dcells hb hno k
      unfold MValue.assignOuter
      simp only [Nat.zero_add]
      by_cases hlt : bit < endd
      · rw [dif_pos hlt]
        by_cases hv : (scells.getD (sbase + bit) zeroCell).valid = false
        · rw [if_pos hv]
          rw [ih (bit+1) dcells (by omega)
            (fun j h1 h2 h3 => hno j (by omega) h2 h3) k]
          by_cases hk : k = bit
          · subst hk
            rw [if_neg (by omega), if_neg (by
              intro hc
              rw [hc.2.2] at hv
              cases hv)]
          · by_cases hcond : bit + 1 ≤ k ∧ k < endd ∧
                (scells.getD (sbase + k) zeroCell).valid = true
            · rw [if_pos hcond, if_pos ⟨by omega, hcond.2⟩]
            · rw [if_neg hcond, if_neg (by
                intro hc
                exact hcond ⟨by omega, hc.2⟩)]
        · rw [if_neg hv]
          have hvv : (scells.getD (sbase + bit) zeroCell).valid = true := by
            revert hv
            cases (scells.getD (sbase + bit) zeroCell).valid
            · simp
            · simp
          -- the Struct-anchor branch is impossible: hno forbids a valid source
          -- cell over a Null-coded destination cell
          have hcode : ¬ (dcells.getD bit zeroCell).code = .Null := by
            intro hc
            have := hno bit (by omega) hlt hc
            rw [this] at hvv
            cases hvv
          rw [if_neg hcode]
          rw [ih (bit+1) _ (by omega)
            (fun j h1 h2 h3 => by
              rw [getD_set_ne _ _ _ _ (by omega)] at h3
              exact hno j (by omega) h2 h3) k]
          by_cases hk : k = bit
          · subst hk
            rw [if_neg (by omega), if_pos ⟨le_refl _, hlt, hvv⟩]
            cases hget : dcells.get? k with
            | none =>
                simp [List.get?_set, hget]
                exact List.get?_eq_none.mp hget
            | some a =>
                have hklen : k < dcells.length := by
                  obtain ⟨hlen2, _⟩ := List.get?_eq_some.mp hget
                  exact hlen2
                have hg2 : dcells[k]? = some a := by
                  rw [← List.get?_eq_getElem?]
                  exact hget
                simp [List.get?_set, hget, List.getD_eq_get?,
                  List.getElem?_set_self hklen, hg2]
          · by_cases hcond : bit + 1 ≤ k ∧ k < endd ∧
                (scells.getD (sbase + k) zeroCell).valid = true
            · rw [if_pos hcond, if_pos ⟨by omega, hcond.2⟩]
              simp only [List.get?_set]
              rw [if_neg (by omega)]
            · rw [if_neg hcond, if_neg (by
                intro hc
                exact hcond ⟨by omega, hc.2⟩)]
              simp only [List.get?_set]
              rw [if_neg (by omega)]
      · rw [dif_neg hlt, if_neg (by omega)]

theorem foldl_set_length (f : Nat → FieldStorage) :
    ∀ (l : List (String × Nat)) (base : List FieldStorage),
    (l.foldl (fun cs p => cs.set p.2 (f p.2)) base).length = base.length := by
  intro l
  induction l with
  | nil => intro base; rfl
  | cons p ps ih =>
      intro base
      simp only [List.foldl_cons]
      rw [ih]
      exact List.length_set ..

theorem foldl_set_get? (f : Nat → FieldStorage) :
    ∀ (l : List (String × Nat)) (base : List FieldStorage) (j : Nat),
    (l.foldl (fun cs p => cs.set p.2 (f p.2)) base).get? j =
      if (l.any (fun p => p.2 == j)) = true ∧ j < base.length then some (f j)
      else base.get? j := by
  intro l
  induction l with
  | nil =>
      intro base j
      simp
  | cons p ps ih =>
      intro base j
      simp only [List.foldl_cons]
      rw [ih (base.set p.2 (f p.2)) j]
      rw [List.length_set]
      by_cases hps : (ps.any (fun p => p.2 == j)) = true ∧ j < base.length
      · rw [if_pos hps, if_pos ⟨by simp [hps.1], hps.2⟩]
      · rw [if_neg hps]
        by_cases hpj : p.2 = j
        · subst hpj
          by_cases hjl : p.2 < base.length
          · rw [if_pos ⟨by simp, hjl⟩]
            rw [List.get?_set, if_pos rfl, List.get?_eq_get hjl]
            rfl
          · rw [if_neg (fun hc => hjl hc.2)]
            rw [List.get?_set, if_pos rfl]
            have : base.get? p.2 = none := List.get?_eq_none.mpr (by omega)
            rw [this]
            rfl
        · rw [List.get?_set, if_neg hpj]
          rw [if_neg (by
            intro hc
            rcases hc with ⟨hany, hlen⟩
            simp only [List.any_cons, Bool.or_eq_true, beq_iff_eq] at hany
            rcases hany with h1 | h2
            · exact hpj h1
            · exact hps ⟨by simp [h2], hlen⟩)]

theorem buildCells_length (d0 : FieldDesc) (rest : List FieldDesc) :
    (ValueBase.buildCells (d0 :: rest)).length = d0.size := by
  simp only [ValueBase.buildCells]
  by_cases hs : d0.code = .Struct
  · rw [if_pos hs,
      foldl_set_length (fun k => FieldStorage.init ((d0 :: rest).getD k default))
        d0.mlookup]
    rw [List.length_set, List.length_replicate]
  · rw [if_neg hs]
    rw [List.length_set, List.length_replicate]

theorem buildCells_get? (d0 : FieldDesc) (rest : List FieldDesc)
    (hml : d0.code = .Struct → ∀ p ∈ d0.mlookup, 1 ≤ p.2 ∧ p.2 < d0.size)
    (hcov : d0.code = .Struct →
      ∀ j, 1 ≤ j → j < d0.size → d0.mlookup.any (fun p => p.2 == j) = true)
    (hone : d0.code ≠ .Struct → d0.size = 1) :
    ∀ j, j < d0.size →
      (ValueBase.buildCells (d0 :: rest)).get? j =
        some (FieldStorage.init ((d0 :: rest).getD j default)) := by
  intro j hj
  have hbase : ((List.replicate d0.size zeroCell).set 0
      (FieldStorage.init d0)).get? j =
      if j = 0 then some (FieldStorage.init d0) else some zeroCell := by
    rw [List.get?_set]
    by_cases hj0 : j = 0
    · subst hj0
      rw [if_pos rfl, if_pos rfl]
      rw [List.get?_eq_get (by simpa using hj)]
      rfl
    · rw [if_neg (fun hc => hj0 hc.symm), if_neg hj0]
      rw [List.get?_eq_get (by simpa using hj)]
      simp [List.get_replicate]
  simp only [ValueBase.buildCells]
  by_cases hs : d0.code = .Struct
  · rw [if_pos hs]
    rw [foldl_set_get? (fun k => FieldStorage.init ((d0 :: rest).getD k default))
      d0.mlookup ((List.replicate d0.size zeroCell).set 0 (FieldStorage.init d0)) j]
    rw [List.length_set, List.length_replicate]
    by_cases hj0 : j = 0
    · subst hj0
      rw [if_neg (by
        intro hc
        rcases hc with ⟨hany, _⟩
        simp only [List.any_eq_true, beq_iff_eq] at hany
        obtain ⟨p, hp, hp0⟩ := hany
        have := (hml hs p hp).1
        omega)]
      rw [hbase, if_pos rfl]
      rfl
    · rw [if_pos ⟨hcov hs j (by omega) hj, hj⟩]
  · rw [if_neg hs]
    have h1 : d0.size = 1 := hone hs
    have hj0 : j = 0 := by omega
    subst hj0
    rw [hbase, if_pos rfl]
    rfl

/-- The result handle of a traversal aliases the original value: it is either
a cursor into the same StructTop, or reached by descending through IValues
stored in its cells (compound cells or elements of Value arrays), transitively
— never a copy. -/
inductive Aliases : IVal → IVal → Prop where
  | refl (v : IVal) : Aliases v v
  | sameTree (ds : List FieldDesc) (cs : List FieldStorage) (i j : Nat) :
      Aliases (.handle ds cs i) (.handle ds cs j)
  | intoComp (ds : List FieldDesc) (cs : List FieldStorage) (i j : Nat)
      (c : FieldStorage) (w v : IVal) :
      cs.get? j = some c → c.val = .vComp w → Aliases w v →
      Aliases (.handle ds cs i) v
  | intoArrElem (ds : List FieldDesc) (cs : List FieldStorage) (i j : Nat)
      (c : FieldStorage) (elems : List IVal) (w v : IVal) :
      cs.get? j = some c → c.val = .vArrV elems → w ∈ elems → Aliases w v →
      Aliases (.handle ds cs i) v

theorem Aliases.reindex {ds : List FieldDesc} {cs : List FieldStorage}
    {j : Nat} {v : IVal} (h : Aliases (.handle ds cs j) v) (i : Nat) :
    Aliases (.handle ds cs i) v := by
  cases h with
  | refl => exact Aliases.sameTree ds cs i j
  | sameTree _ _ _ k => exact Aliases.sameTree ds cs i k
  | intoComp _ _ _ k c w v hg hv ha =>
      exact Aliases.intoComp ds cs i k c w v hg hv ha
  | intoArrElem _ _ _ k c elems w v hg hv hm ha =>
      exact Aliases.intoArrElem ds cs i k c elems w v hg hv hm ha

theorem ValueBase.traverseLoop_empty (expr : List Char) (modify : Bool)
    (pos : Nat) : ValueBase.traverseLoop .empty expr modify pos = .empty := by
  unfold ValueBase.traverseLoop
  rfl

theorem FieldStorage.compVal_handle (c : FieldStorage) (a : List FieldDesc)
    (b : List FieldStorage) (k : Nat) (h : c.compVal = .handle a b k) :
    c.val = .vComp (.handle a b k) := by
  unfold FieldStorage.compVal at h
  cases hv : c.val with
  | vComp w =>
      rw [hv] at h
      have h2 : w = .handle a b k := h
      exact congrArg SVal.vComp h2
  | vNull => rw [hv] at h; exact IVal.noConfusion h
  | vBool b2 => rw [hv] at h; exact IVal.noConfusion h
  | vInt i2 => rw [hv] at h; exact IVal.noConfusion h
  | vUInt n2 => rw [hv] at h; exact IVal.noConfusion h
  | vReal r2 => rw [hv] at h; exact IVal.noConfusion h
  | vStr s2 => rw [hv] at h; exact IVal.noConfusion h
  | vArr t2 raw2 => rw [hv] at h; exact IVal.noConfusion h
  | vArrV e2 => rw [hv] at h; exact IVal.noConfusion h

theorem cell_val_lt_length (cs : List FieldStorage) (idx : Nat)
    (h : (cs.getD idx zeroCell).val ≠ .vNull) : idx < cs.length := by
  by_contra h2
  have hz : cs.getD idx zeroCell = zeroCell := by
    rw [List.getD_eq_get?, List.get?_eq_none.mpr (by omega)]
    rfl
  rw [hz] at h
  exact h rfl

theorem cell_get?_getD (cs : List FieldStorage) (idx : Nat)
    (h : idx < cs.length) : cs.get? idx = some (cs.getD idx zeroCell) := by
  rw [List.getD_eq_get?, List.get?_eq_get h]
  rfl

theorem ValueBase.traverseLoop_alias (expr : List Char) (modify : Bool) :
    ∀ (n pos : Nat) (v : IVal), expr.length - pos ≤ n →
      ValueBase.traverseLoop v expr modify pos = .empty ∨
      Aliases v (ValueBase.traverseLoop v expr modify pos) := by
  intro n
  induction n with
  | zero =>
      intro pos v hb
      cases v with
      | empty => exact Or.inl (ValueBase.traverseLoop_empty expr modify pos)
      | handle ds cs idx =>
          unfold ValueBase.traverseLoop
          have hnp : ¬ pos < expr.length := by omega
          rw [dif_neg hnp]
          exact Or.inr (Aliases.refl _)
  | succ n ih =>
      intro pos v hb
      cases v with
      | empty => exact Or.inl (ValueBase.traverseLoop_empty expr modify pos)
      | handle ds cs idx =>
          unfold ValueBase.traverseLoop
          by_cases hpos : pos < expr.length
          case neg =>
            rw [dif_neg hpos]
            exact Or.inr (Aliases.refl _)
          rw [dif_pos hpos]
          by_cases hlt : expr.getD pos ' ' = '<'
          case pos =>
            rw [if_pos hlt]
            by_cases hidx : idx ≠ 0
            · rw [if_pos hidx]
              rcases ih (pos+1)
                (.handle ds cs (idx - (ds.getD idx default).parent_index))
                (by omega) with h | h
              · exact Or.inl h
              · exact Or.inr (h.reindex idx)
            · rw [if_neg hidx]
              exact Or.inl rfl
          rw [if_neg hlt]
          by_cases hstruct : (ds.getD idx default).code = .Struct
          case pos =>
            rw [if_pos hstruct]
            dsimp only []
            split
            · rename_i off hm
              split
              · rename_i hprog
                rcases ih ((findFirstOf expr ['<', '[', '-'] pos).getD
                    expr.length) (.handle ds cs (idx + off)) (by omega)
                  with h | h
                · exact Or.inl h
                · exact Or.inr (h.reindex idx)
              · exact Or.inl rfl
            · exact Or.inl rfl
          rw [if_neg hstruct]
          by_cases hmod : modify = true
          case pos =>
            rw [if_pos hmod]
            exact Or.inl rfl
          rw [if_neg hmod]
          by_cases hu : (ds.getD idx default).code = .Union ∨
              (ds.getD idx default).code = .Any
          case pos =>
            rw [if_pos hu]
            by_cases harrow : expr.length - pos ≥ 3 ∧ expr.getD pos ' ' = '-' ∧
                expr.getD (pos + 1) ' ' = '>'
            case neg =>
              rw [if_neg harrow]
              exact Or.inl rfl
            rw [if_pos harrow]
            by_cases hany : (ds.getD idx default).code = .Any
            case pos =>
              rw [if_pos hany]
              rcases hcv : (cs.getD idx zeroCell).compVal with _ | ⟨wds, wcs, wi⟩
              · exact Or.inl (ValueBase.traverseLoop_empty expr modify _)
              · have hval := FieldStorage.compVal_handle _ _ _ _ hcv
                have hrange : idx < cs.length :=
                  cell_val_lt_length cs idx (by rw [hval]; intro hx; cases hx)
                have hget := cell_get?_getD cs idx hrange
                rcases ih (pos+2) (.handle wds wcs wi) (by omega) with h | h
                · exact Or.inl h
                · exact Or.inr (Aliases.intoComp ds cs idx idx _ _ _ hget hval h)
            rw [if_neg hany]
            dsimp only []
            split
            · rename_i off hm
              by_cases hsel : fldSelectedIs ((cs.getD idx zeroCell).compVal)
                  ((ds.getD idx default).members.getD off default) = true
              case neg =>
                rw [if_neg hsel]
                exact Or.inl rfl
              rw [if_pos hsel]
              split
              · rename_i hprog
                rcases hcv : (cs.getD idx zeroCell).compVal
                  with _ | ⟨wds, wcs, wi⟩
                · exact Or.inl (ValueBase.traverseLoop_empty expr modify _)
                · have hval := FieldStorage.compVal_handle _ _ _ _ hcv
                  have hrange : idx < cs.length :=
                    cell_val_lt_length cs idx (by rw [hval]; intro hx; cases hx)
                  have hget := cell_get?_getD cs idx hrange
                  rcases ih ((findFirstOf expr ['<', '[', '-', '.']
                      (pos + 2)).getD expr.length) (.handle wds wcs wi)
                    (by omega) with h | h
                  · exact Or.inl h
                  · exact Or.inr
                      (Aliases.intoComp ds cs idx idx _ _ _ hget hval h)
              · exact Or.inl rfl
            · rename_i hm
              rcases ih (pos+2) (.handle ds cs idx) (by omega) with h | h
              · exact Or.inl h
              · exact Or.inr (h.reindex idx)
          rw [if_neg hu]
          by_cases harr : (ds.getD idx default).code.isarray = true ∧
              (ds.getD idx default).code.kind = .Compound
          case neg =>
            rw [if_neg harr]
            exact Or.inl rfl
          rw [if_pos harr]
          split
          · rename_i sep hf
            split
            · rename_i hcond
              split
              · rename_i index hparse
                split
                · rename_i elems hval2
                  split
                  · rename_i hlen
                    have hsep := findFirstOf_ge expr [']'] pos sep hf
                    have hrange : idx < cs.length :=
                      cell_val_lt_length cs idx (by rw [hval2]; intro hx; cases hx)
                    have hget := cell_get?_getD cs idx hrange
                    have hmem : elems.getD index .empty ∈ elems := by
                      rw [List.getD_eq_get?, List.get?_eq_get hlen]
                      exact List.get_mem ..
                    rcases ih (sep+1) (elems.getD index .empty) (by omega)
                      with h | h
                    · exact Or.inl h
                    · exact Or.inr (Aliases.intoArrElem ds cs idx idx _ elems _ _
                        hget hval2 hmem h)
                  · exact Or.inl rfl
                · exact Or.inl rfl
              · exact Or.inl rfl
            · exact Or.inl rfl
          · exact Or.inl rfl

/-- Struct { a = 5 (valid), b = 7 (not valid) } with the anchor not marked:
a well-formed input without valid Struct anchors. -/
def wT2 : StructTop :=
  { descs := descsT2,
    cells := [.mk .Null .vNull false, .mk .Integer (.vInt 5) true,
              .mk .Integer (.vInt 7) false] }

/-! Claim-level theorems. -/

/-- C1 counterexample: the claim states m.clone().freeze().thaw() is
structurally equal to m for any pattern of valid bits and stored values.  It
fails already for a single int32 cell storing 5 with the valid bit clear
(clone copies only valid cells, so the roundtrip yields 0), and for the fully
marked struct { a=5, b=7 } (the inner assign loop skips leaf b). -/
theorem C1_counterexample :
    cloneFreezeThaw srcT1 0 ≠ .ok srcT1 ∧
    cloneFreezeThaw srcT2 0 ≠ .ok srcT2 := by
  constructor
  · intro hc
    simp [cloneFreezeThaw, MValue.freeze, IValue.thaw, ValueBase.clone, Except.map,
      MValue.assignOuter, MValue.assignInner, ValueBase.buildCells, srcT1,
      dInt32, FieldDesc.size, FieldStorage.init, FieldStorage.withValid,
      zeroCell, StructTop.descAt, StructTop.cellAt, StructTop.sizeAt,
      FieldDesc.code, FieldDesc.mlookup, FieldDesc.members, FieldStorage.code,
      FieldStorage.val, FieldStorage.valid, TypeCode.kind, TypeCode.isarray,
      TypeCode.isunsigned, List.set] at hc
  · intro hc
    simp [cloneFreezeThaw, MValue.freeze, IValue.thaw, ValueBase.clone, Except.map,
      MValue.assignOuter, MValue.assignInner, ValueBase.buildCells, srcT2,
      descsT2, dRoot2, dInt32, FieldDesc.size, FieldStorage.init,
      FieldStorage.withValid, zeroCell, StructTop.descAt, StructTop.cellAt,
      StructTop.sizeAt, FieldDesc.code, FieldDesc.mlookup, FieldDesc.members,
      FieldStorage.code, FieldStorage.val, FieldStorage.valid, TypeCode.kind,
      TypeCode.isarray, TypeCode.isunsigned, List.set] at hc

/-- C1 (amended): for every well-formed MValue handle none of whose
Struct-anchor (storage-Null) cells is marked valid, m.clone().freeze().thaw()
succeeds and yields a value over the node's descriptor subtree that agrees
with m (same contents, valid bit set) at every cell marked valid in m, and
holds the freshly initialized contents with the valid bit clear at every other
cell. -/
theorem C1_clone_freeze_thaw_amended (t : StructTop) (idx : Nat)
    (hwf : t.wfAt idx = true) (hna : t.noValidAnchorAt idx = true) :
    ∃ r, cloneFreezeThaw t idx = .ok r ∧
      r.descs = (t.descs.drop idx).take (t.sizeAt idx) ∧
      r.cells.length = t.sizeAt idx ∧
      ∀ j, j < t.sizeAt idx →
        r.cells.get? j =
          some (if (t.cellAt (idx + j)).valid = true then t.cellAt (idx + j)
                else FieldStorage.init (t.descAt (idx + j))) := by
  -- unpack well-formedness
  simp only [StructTop.wfAt, Bool.and_eq_true, decide_eq_true_eq] at hwf
  obtain ⟨⟨⟨⟨⟨hidx, hsz⟩, hlen⟩, hcodes⟩, hsor⟩, hstr⟩ := hwf
  rw [List.all_eq_true] at hcodes
  have hcode : ∀ j, j < t.sizeAt idx →
      (t.cellAt (idx + j)).code = initCode (t.descAt (idx + j)) := by
    intro j hj
    have := hcodes j (List.mem_range.mpr hj)
    exact beq_iff_eq.mp this
  simp only [StructTop.noValidAnchorAt, List.all_eq_true] at hna
  have hanchor : ∀ j, j < t.sizeAt idx →
      (t.cellAt (idx + j)).code = .Null → (t.cellAt (idx + j)).valid = false := by
    intro j hj hc
    have := hna j (List.mem_range.mpr hj)
    rw [Bool.or_eq_true] at this
    rcases this with h | h
    · rw [Bool.not_eq_true'] at h
      exact absurd (beq_iff_eq.mpr hc) (by rw [h]; intro hx; cases hx)
    · exact beq_iff_eq.mp h
  -- the descriptor slice of the node's subtree
  have hn1 : 1 ≤ t.sizeAt idx := (t.descAt idx).size_pos
  have hget_descs : ∀ j, j < t.sizeAt idx →
      t.descs.get? (idx + j) = some (t.descAt (idx + j)) := by
    intro j hj
    unfold StructTop.descAt
    rw [List.getD_eq_get?]
    cases hq : t.descs.get? (idx + j) with
    | none =>
        have := List.get?_eq_none.mp hq
        simp only [StructTop.sizeAt] at hj
        omega
    | some a => rfl
  have hslice_get : ∀ j, j < t.sizeAt idx →
      ((t.descs.drop idx).take (t.sizeAt idx)).get? j =
        some (t.descAt (idx + j)) := by
    intro j hj
    rw [List.get?_take hj, List.get?_drop]
    exact hget_descs j hj
  have hslice_len : ((t.descs.drop idx).take (t.sizeAt idx)).length =
      t.sizeAt idx := by
    rw [List.length_take, List.length_drop]
    simp only [StructTop.sizeAt]
    omega
  -- the slice is d :: rest with d the node's descriptor
  obtain ⟨d0, rest, hsl⟩ :
      ∃ d0 rest, (t.descs.drop idx).take (t.sizeAt idx) = d0 :: rest :=
    List.exists_cons_of_ne_nil (by
      intro hnil
      rw [hnil] at hslice_len
      simp at hslice_len
      omega)
  have hd0 : d0 = t.descAt idx := by
    have := hslice_get 0 (by omega)
    rw [hsl] at this
    simpa using this
  have hslice_getD : ∀ j, j < t.sizeAt idx →
      ((t.descs.drop idx).take (t.sizeAt idx)).getD j default =
        t.descAt (idx + j) := by
    intro j hj
    rw [List.getD_eq_get?, hslice_get j hj]
    rfl
  have hsize0 : (((t.descs.drop idx).take (t.sizeAt idx)).getD 0 default).size =
      t.sizeAt idx := by
    rw [hslice_getD 0 (by omega)]
    rfl
  -- fresh cells from the ValueBase constructor
  have hstruct : d0.code = .Struct →
      (∀ p ∈ d0.mlookup, 1 ≤ p.2 ∧ p.2 < d0.size) ∧
      (∀ j, 1 ≤ j → j < d0.size →
        d0.mlookup.any (fun p => p.2 == j) = true) := by
    intro hs
    have hstr2 := hstr
    rw [Bool.or_eq_true] at hstr2
    rcases hstr2 with h | h
    · rw [Bool.not_eq_true'] at h
      rw [hd0] at hs
      exact absurd (beq_iff_eq.mpr hs) (by rw [h]; intro hx; cases hx)
    · rw [Bool.and_eq_true] at h
      obtain ⟨h1, h2⟩ := h
      rw [List.all_eq_true] at h1 h2
      constructor
      · intro p hp
        have hp2 : p ∈ (t.descAt idx).mlookup := by rw [← hd0]; exact hp
        have := h1 p hp2
        rw [Bool.and_eq_true] at this
        obtain ⟨ha, hb⟩ := this
        refine ⟨of_decide_eq_true ha, ?_⟩
        have := of_decide_eq_true hb
        rw [hd0]
        exact this
      · intro j h1j hjn
        have hjn2 : j < (t.descAt idx).size := by rw [← hd0]; exact hjn
        have hmem : j ∈ List.range (t.descAt idx).size := List.mem_range.mpr hjn2
        have := h2 j hmem
        rw [Bool.or_eq_true] at this
        rcases this with hz | hz
        · have := of_decide_eq_true hz
          omega
        · rw [hd0]
          exact hz
  have hone : d0.code ≠ .Struct → d0.size = 1 := by
    intro hs
    rw [Bool.or_eq_true] at hsor
    rcases hsor with h | h
    · rw [hd0] at hs
      exact absurd (beq_iff_eq.mp h) hs
    · rw [hd0]
      exact of_decide_eq_true h
  have hfresh_get : ∀ j, j < t.sizeAt idx →
      (ValueBase.buildCells ((t.descs.drop idx).take (t.sizeAt idx))).get? j =
        some (FieldStorage.init (t.descAt (idx + j))) := by
    intro j hj
    have hjd : j < d0.size := by rw [hd0]; exact hj
    have := buildCells_get? d0 rest (fun hs => (hstruct hs).1)
      (fun hs => (hstruct hs).2) hone j hjd
    rw [hsl]
    rw [this]
    congr 1
    have : (d0 :: rest).getD j default =
        ((t.descs.drop idx).take (t.sizeAt idx)).getD j default := by rw [hsl]
    rw [this, hslice_getD j hj]
  have hfresh_len :
      (ValueBase.buildCells ((t.descs.drop idx).take (t.sizeAt idx))).length =
        t.sizeAt idx := by
    rw [hsl, buildCells_length, hd0]
    rfl
  -- the roundtrip is the clone (freeze and thaw both see use_count 1)
  have hrt : cloneFreezeThaw t idx = .ok (ValueBase.clone t idx) := by
    simp [cloneFreezeThaw, MValue.freeze, IValue.thaw, Except.map]
  refine ⟨ValueBase.clone t idx, hrt, ?_, ?_, ?_⟩
  · simp only [ValueBase.clone]
  · simp only [ValueBase.clone]
    rw [MValue.assignOuter_length _ _ _ _
      ((((t.descs.drop idx).take (t.sizeAt idx)).getD 0 default).size)
      ((((t.descs.drop idx).take (t.sizeAt idx)).getD 0 default).size) 0 _
      (by omega)]
    exact hfresh_len
  · intro j hj
    simp only [ValueBase.clone]
    rw [hsize0]
    rw [MValue.assignOuter_get?_zero _ _ _ (t.sizeAt idx) (t.sizeAt idx) 0 _
      (by omega)
      (by
        intro j2 _ hj2 hc
        have hf := hfresh_get j2 hj2
        rw [List.getD_eq_get?, hf] at hc
        have hcinit : initCode (t.descAt (idx + j2)) = .Null := hc
        have := hcode j2 hj2
        exact hanchor j2 hj2 (by rw [this, hcinit])) j]
    by_cases hv : (t.cellAt (idx + j)).valid = true
    · rw [if_pos ⟨by omega, hj, by
        unfold StructTop.cellAt at hv
        exact hv⟩]
      rw [hfresh_get j hj]
      simp only [Option.map_some']
      rw [if_pos hv]
      have hc := hcode j hj
      have : (FieldStorage.init (t.descAt (idx + j))).code =
          initCode (t.descAt (idx + j)) := rfl
      unfold StructTop.cellAt at hc hv ⊢
      congr 1
      cases hcc : t.cells.getD (idx + j) zeroCell with
      | mk cc vv bb =>
          rw [hcc] at hc hv
          simp only [FieldStorage.code_mk] at hc
          simp only [FieldStorage.valid_mk] at hv
          simp [this, hc, hv, FieldStorage.val]
    · rw [if_neg (by
        intro hcond
        unfold StructTop.cellAt at hv
        exact hv hcond.2.2)]
      rw [hfresh_get j hj]
      rw [if_neg hv]

/-- C1 witness: the amended roundtrip theorem applied to a concrete value. -/
theorem C1_witness :
    ∃ r, cloneFreezeThaw wT2 0 = .ok r ∧
      r.descs = (wT2.descs.drop 0).take (wT2.sizeAt 0) ∧
      r.cells.length = wT2.sizeAt 0 ∧
      ∀ j, j < wT2.sizeAt 0 →
        r.cells.get? j =
          some (if (wT2.cellAt (0 + j)).valid = true then wT2.cellAt (0 + j)
                else FieldStorage.init (wT2.descAt (0 + j))) :=
  C1_clone_freeze_thaw_amended wT2 0 (by decide) (by decide)

/-- C2: the claim states that MValue::assign on a shared descriptor copies
every source cell whose valid bit is set — in particular, under a valid Struct
anchor, every leaf of the sub-structure — into the destination.  On the code
this fails: with source struct { a = 5, b = 7 } fully marked (anchor
included), assigning into a fresh destination copies leaf a but leaves leaf b
untouched (0, not valid), because the inner sub-structure loop of assign
increments bit both in its header and inside the non-Null switch cases,
skipping every other cell. -/
theorem C2_assign_failing_input :
    MValue.assign dstT2 0 srcT2 0 true =
      .ok { descs := descsT2,
            cells := [.mk .Null .vNull true, .mk .Integer (.vInt 5) true,
                      .mk .Integer (.vInt 0) false] } ∧
    (srcT2.cellAt 2).valid = true ∧ (srcT2.cellAt 2).val = .vInt 7 := by
  refine ⟨?_, by simp [srcT2, StructTop.cellAt], by simp [srcT2, StructTop.cellAt]⟩
  simp [MValue.assign, MValue.assignOuter, MValue.assignInner, ValueBase.buildCells,
    dstT2, descsT2, srcT2, dRoot2, dInt32, FieldDesc.size, FieldStorage.init,
    FieldStorage.withValid, zeroCell, StructTop.descAt, StructTop.cellAt,
    FieldDesc.code, FieldDesc.mlookup, FieldDesc.members, FieldStorage.code,
    FieldStorage.val, FieldStorage.valid, TypeCode.kind, TypeCode.isarray,
    TypeCode.isunsigned, List.set, assignKindOk]

/-- C3: Bool→String conversion yields "true"/"false" and copyIn of a string
into a Bool cell accepts exactly "true"/"false" — those parts hold.  But
copyOut of a String cell to Bool rejects "false" (NoConvert) and instead maps
the misspelling "flase" to false, so the claim that "false" (case-sensitive)
converts and everything else raises NoConvert fails on the code. -/
theorem C3_bool_string_conversions :
    ValueBase.copyOut (.mk .Bool (.vBool true) true) .String =
      .ok ⟨.String, .vStr "true"⟩ ∧
    ValueBase.copyOut (.mk .Bool (.vBool false) true) .String =
      .ok ⟨.String, .vStr "false"⟩ ∧
    MValue.copyIn dBool (.mk .Bool (.vBool true) false) .String (.vStr "false") =
      .ok (.mk .Bool (.vBool false) true) ∧
    MValue.copyIn dBool (.mk .Bool (.vBool false) false) .String (.vStr "true") =
      .ok (.mk .Bool (.vBool true) true) ∧
    MValue.copyIn dBool (.mk .Bool (.vBool false) false) .String (.vStr "yes") =
      .error .NoConvert ∧
    ValueBase.copyOut (.mk .String (.vStr "true") true) .Bool =
      .ok ⟨.Bool, .vBool true⟩ ∧
    ValueBase.copyOut (.mk .String (.vStr "false") true) .Bool =
      .error .NoConvert ∧
    ValueBase.copyOut (.mk .String (.vStr "flase") true) .Bool =
      .ok ⟨.Bool, .vBool false⟩ := by
  refine ⟨?_, ?_, ?_, ?_, ?_, ?_, ?_, ?_⟩ <;>
    simp [ValueBase.copyOut, MValue.copyIn, strToBoolChain, FieldStorage.code]

/-- C4: the claim states that copyOut from a String cell to Integer, UInteger
or Real raises NoConvert when the string does not parse as the requested type,
and otherwise writes under exactly the requested StoreType.  On the code this
fails: the String-source switch cases have no break, so a failed parse falls
through to the next case.  Requesting Integer from "1.5" writes the double
1.5 through the Real interpretation, and requesting Real from "true" writes a
bool, instead of raising NoConvert. -/
theorem C4_string_parse_fall_through :
    ValueBase.copyOut (.mk .String (.vStr "1.5") true) .Integer =
      .ok ⟨.Real, .vReal (3/2 : ℚ)⟩ ∧
    ValueBase.copyOut (.mk .String (.vStr "true") true) .Real =
      .ok ⟨.Bool, .vBool true⟩ ∧
    ValueBase.copyOut (.mk .String (.vStr "37") true) .Integer =
      .ok ⟨.Integer, .vInt 37⟩ := by
  have h1 : epicsParseInt64 "1.5" = none := by decide
  have h2 : epicsParseUInt64 "1.5" = none := by decide
  have h3 : epicsParseDouble "1.5" = some (3/2 : ℚ) := by
    have h : epicsParseDouble "1.5" = some (mkRat 15 10) := by rfl
    rw [h, Rat.mkRat_eq_div]; norm_num
  have h4 : epicsParseDouble "true" = none := by decide
  have h5 : epicsParseInt64 "37" = some 37 := by decide
  refine ⟨?_, ?_, ?_⟩ <;>
    simp [ValueBase.copyOut, strToIntegerChain, strToUIntegerChain,
      strToRealChain, strToBoolChain, h1, h2, h3, h4, h5]

/-- C5: mark()/unmark() with default arguments indeed change only the cell's
own valid bit; but the claim that unmark(parents=true, children=true) clears
every ancestor up to the root fails on the code: in the fully marked value
struct { m { leaf } }, unmarking from the leaf clears m but leaves the root
Struct cell marked, because the parent walk moves the descriptor pointer first
and then steps the storage pointer by the parent_index of the already-moved
descriptor, desynchronizing the two. -/
theorem C5_unmark_failing_input :
    (MValue.unmark tNested 2 true true).cells.map (fun c => c.valid) =
      [true, false, false] ∧
    (MValue.unmark tNested 2 false false).cells.map (fun c => c.valid) =
      [true, true, false] ∧
    (MValue.mark (MValue.unmark tNested 2 false false) 2 true).cells.map
      (fun c => c.valid) = [true, true, true] := by
  refine ⟨?_, ?_, ?_⟩ <;>
    simp [MValue.mark, MValue.unmark, MValue.unmarkParents, tNested, dRootN, dMid,
      dInt32, StructTop.descAt, StructTop.cellAt, FieldDesc.size,
      FieldDesc.parent_index, FieldDesc.mlookup, FieldDesc.members,
      FieldStorage.withValid, FieldStorage.valid, FieldDesc.code, List.set,
      List.range, List.foldl, zeroCell]

/-- C6: traversal by path is total — the model function is defined for every
value and path string by well-founded recursion on the position — and never
copies storage: the result is the empty handle or a handle aliasing the
original tree (reached only through cursor moves and IValues already stored in
its cells).  Concretely, a missing member yields the empty handle and a member
access yields the aliasing cursor into the same cell array. -/
theorem C6_traverse_total_alias :
    (∀ (v : IVal) (expr : String) (modify : Bool),
      ValueBase.traverse v expr modify = .empty ∨
      Aliases v (ValueBase.traverse v expr modify)) ∧
    ValueBase.traverse (.handle descsT2 srcT2.cells 0) "nosuch" false =
      .empty ∧
    ValueBase.traverse (.handle descsT2 srcT2.cells 0) "a" false =
      .handle descsT2 srcT2.cells 1 := by
  refine ⟨?_, ?_, ?_⟩
  · intro v expr modify
    exact ValueBase.traverseLoop_alias expr.data modify expr.data.length 0 v
      (by omega)
  · simp [ValueBase.traverse, ValueBase.traverseLoop, findFirstOf, mfind,
      substrS, descsT2, dRoot2, dInt32, FieldDesc.code, FieldDesc.mlookup,
      FieldDesc.parent_index, String.data]
  · simp [ValueBase.traverse, ValueBase.traverseLoop, findFirstOf, mfind,
      substrS, descsT2, dRoot2, dInt32, FieldDesc.code, FieldDesc.mlookup,
      FieldDesc.parent_index, String.data]

/-- C7: MValue::freeze succeeds exactly when the handle is the sole owner of
its StructTop (use_count 1 for a live handle), returning the same storage
without copying; with other owners it fails with an error and, the model being
pure, leaves the value untouched. -/
theorem C7_freeze_sole_owner (t : StructTop) (use_count : Nat)
    (h : 1 ≤ use_count) :
    (MValue.freeze t use_count = .ok t ↔ use_count = 1) ∧
    (1 < use_count →
      MValue.freeze t use_count = .error "cannot freeze MValue with multiple refs") := by
  unfold MValue.freeze
  constructor
  · constructor
    · intro hok
      by_cases hgt : use_count > 1
      · simp [hgt] at hok
      · omega
    · intro h1
      simp [h1]
  · intro hgt
    simp [hgt]

/-- C7 witness: a concrete sole-owner freeze succeeds. -/
theorem C7_witness :
    (MValue.freeze srcT1 1 = .ok srcT1 ↔ (1 : Nat) = 1) ∧
    (1 < (1 : Nat) →
      MValue.freeze srcT1 1 = .error "cannot freeze MValue with multiple refs") :=
  C7_freeze_sole_owner srcT1 1 (by decide)

/-- Per-operation invariant giving at-most-once delivery: the callback count
never exceeds one, and while the callback is still held it has never fired. -/
def ClientSys.inv (s : ClientSys) : Prop :=
  ∀ k o, s.ops.get? k = some o →
    o.calls ≤ 1 ∧ (o.hasDone = true → o.calls = 0)

theorem ClientSys.upd_inv (s : ClientSys) (i : Nat) (f : InfoRec → InfoRec)
    (hf : ∀ o, o.calls ≤ 1 → (o.hasDone = true → o.calls = 0) →
      (f o).calls ≤ 1 ∧ ((f o).hasDone = true → (f o).calls = 0))
    (hs : s.inv) : (s.upd i f).inv := by
  intro k o hk
  unfold ClientSys.upd at hk
  simp only at hk
  rw [List.get?_set] at hk
  by_cases hik : i = k
  · rw [if_pos hik] at hk
    cases hq : s.ops.get? k with
    | none =>
        rw [hq] at hk
        cases hk
    | some a =>
        rw [hq] at hk
        simp at hk
        have hbase := hs k a hq
        have hgetD : s.ops[i]?.getD default = a := by
          rw [← List.get?_eq_getElem?, hik, hq]
          rfl
        rw [hgetD] at hk
        rw [← hk]
        exact hf a hbase.1 hbase.2
  · rw [if_neg hik] at hk
    exact hs k o hk

theorem ClientSys.stepEv_inv (s : ClientSys) (e : CEvent) (hs : s.inv) :
    (s.stepEv e).inv := by
  cases e with
  | createOp i =>
      show (s.upd i (fun o =>
        if o.st = .Connecting then { o with st := .Waiting, inConn := true }
        else o)).inv
      refine ClientSys.upd_inv s i _ ?_ hs
      intro o h1 h2
      by_cases hc : o.st = .Connecting
      · rw [if_pos hc]
        exact ⟨h1, h2⟩
      · rw [if_neg hc]
        exact ⟨h1, h2⟩
  | cancel i =>
      show (s.upd i (fun o =>
        { o with inConn := if o.st = .Waiting then false else o.inConn,
                 st := .Done, hasDone := false })).inv
      refine ClientSys.upd_inv s i _ ?_ hs
      intro o h1 _
      refine ⟨h1, ?_⟩
      intro hc
      cases hc
  | replyGF ioid ok =>
      show (s.applyReply ioid).inv
      unfold ClientSys.applyReply
      cases hf : s.ops.findIdx? (fun o => o.ioid == ioid && o.inConn) with
      | none => exact hs
      | some i =>
          show (if (s.ops.getD i default).kind ≠ OpKind.Info then s
            else if (s.ops.getD i default).st ≠ InfoState.Waiting then
              s.upd i (fun o => { o with inConn := false })
            else
              s.upd i (fun o =>
                { o with inConn := false, st := .Done, hasDone := false,
                         calls := o.calls + (if o.hasDone then 1 else 0) })).inv
          by_cases hk : (s.ops.getD i default).kind ≠ OpKind.Info
          · rw [if_pos hk]
            exact hs
          · rw [if_neg hk]
            by_cases hw : (s.ops.getD i default).st ≠ InfoState.Waiting
            · rw [if_pos hw]
              refine ClientSys.upd_inv s i _ ?_ hs
              intro o h1 h2
              exact ⟨h1, h2⟩
            · rw [if_neg hw]
              refine ClientSys.upd_inv s i _ ?_ hs
              intro o h1 h2
              by_cases hd : o.hasDone = true
              · have h0 := h2 hd
                simp [hd]
                omega
              · rw [Bool.not_eq_true] at hd
                simp [hd]
                omega

theorem ClientSys.runEvents_inv (evs : List CEvent) :
    ∀ (s : ClientSys), s.inv → (s.runEvents evs).inv := by
  induction evs with
  | nil => intro s hs; exact hs
  | cons e es ih =>
      intro s hs
      exact ih (s.stepEv e) (ClientSys.stepEv_inv s e hs)

theorem ClientSys.init_inv (specs : List (Nat × Bool)) :
    (ClientSys.init specs).inv := by
  intro k o hk
  unfold ClientSys.init at hk
  rw [List.get?_map] at hk
  cases hq : specs.get? k with
  | none =>
      rw [hq] at hk
      cases hk
  | some p =>
      rw [hq] at hk
      simp at hk
      rw [← hk]
      exact ⟨by show (0 : Nat) ≤ 1; omega, fun _ => rfl⟩

theorem set_get?_self {α : Type} (l : List α) (i : Nat) (a : α)
    (h : l.get? i = some a) : l.set i a = l := by
  apply List.ext_get?
  intro n
  rw [List.get?_set]
  by_cases hin : i = n
  · subst hin
    rw [if_pos rfl, h]
    rfl
  · rw [if_neg hin]

/-- C8: for every interleaving of executor events over any number of Info
operations, the user result callback fires at most once per operation; and a
GET_FIELD reply that is stale for the current state (unknown ioid, ioid owned
by a non-Info operation, or operation no longer Waiting) is discarded without
invoking any callback and without changing any operation's state, callback or
call count. -/
theorem C8_info_callback_once (specs : List (Nat × Bool)) (evs : List CEvent)
    (s : ClientSys) (ioid : Nat)
    (hstale : s.staleReply ioid = true) :
    (∀ o ∈ ((ClientSys.init specs).runEvents evs).ops, o.calls ≤ 1) ∧
    (s.applyReply ioid).opsView = s.opsView := by
  constructor
  · intro o ho
    obtain ⟨k, hk⟩ := List.mem_iff_get?.mp ho
    exact (ClientSys.runEvents_inv evs (ClientSys.init specs)
      (ClientSys.init_inv specs) k o hk).1
  · unfold ClientSys.applyReply
    unfold ClientSys.staleReply at hstale
    cases hf : s.ops.findIdx? (fun o => o.ioid == ioid && o.inConn) with
    | none => rfl
    | some i =>
        rw [hf] at hstale
        simp only [decide_eq_true_eq] at hstale
        show (if (s.ops.getD i default).kind ≠ OpKind.Info then s
          else if (s.ops.getD i default).st ≠ InfoState.Waiting then
            s.upd i (fun o => { o with inConn := false })
          else
            s.upd i (fun o =>
              { o with inConn := false, st := .Done, hasDone := false,
                       calls := o.calls + (if o.hasDone then 1 else 0) })).opsView
          = s.opsView
        by_cases hk : (s.ops.getD i default).kind ≠ OpKind.Info
        · rw [if_pos hk]
        · rw [if_neg hk]
          have hw : (s.ops.getD i default).st ≠ InfoState.Waiting := by
            rcases hstale with h | h
            · exact absurd h hk
            · exact h
          rw [if_pos hw]
          unfold ClientSys.opsView ClientSys.upd
          simp only [List.map_set]
          have hlen : i < s.ops.length := by
            have := List.findIdx?_eq_some_iff_findIdx_eq.mp hf
            exact this.1
          have hgd : s.ops.get? i = some (s.ops.getD i default) := by
            rw [List.getD_eq_get?, List.get?_eq_get hlen]
            rfl
          apply set_get?_self
          rw [List.get?_map, hgd]
          rfl

/-- C8 witness: the theorem applied to one Info operation driven through
create, a first reply (delivering), a duplicate reply and a cancel, with a
stale reply against the empty connection state. -/
theorem C8_witness :
    (∀ o ∈ ((ClientSys.init [(1, true)]).runEvents
        [CEvent.createOp 0, CEvent.replyGF 1 true, CEvent.replyGF 1 true,
         CEvent.cancel 0]).ops, o.calls ≤ 1) ∧
    (ClientSys.applyReply ⟨[]⟩ 5).opsView = ClientSys.opsView ⟨[]⟩ :=
  C8_info_callback_once [(1, true)]
    [CEvent.createOp 0, CEvent.replyGF 1 true, CEvent.replyGF 1 true,
     CEvent.cancel 0] ⟨[]⟩ 5 (by decide)

/-- C9 counterexample: int32 and int64 are leaf scalars of the same Kind
family (Integer), yet MValue::assign across these two descriptors throws
"Can only assign same TypeDef", because the gate requires the TypeCodes to be
equal, not merely of the same Kind. -/
theorem C9_counterexample :
    (dstI32.descAt 0).code.kind = (srcI64.descAt 0).code.kind ∧
    assignKindOk (dstI32.descAt 0).code ∧
    (dstI32.descAt 0).code.isarray = false ∧
    (srcI64.descAt 0).code.isarray = false ∧
    MValue.assign dstI32 0 srcI64 0 false = .error "Can only assign same TypeDef" := by
  refine ⟨by decide, by decide, by decide, by decide, ?_⟩
  simp [MValue.assign, dstI32, srcI64, dInt32, dInt64, StructTop.descAt,
    FieldDesc.code, assignKindOk, TypeCode.kind]

/-- C9 (amended): across differing descriptors (descriptor pointers unequal),
MValue::assign succeeds if and only if the two descriptors carry the same
TypeCode and that code's Kind is Integer, Real, Bool, or String; the contents
are then copied without conversion.  Codes that differ — even within the same
Kind family — throw. -/
theorem C9_assign_cross_descriptor (dt : StructTop) (didx : Nat)
    (st : StructTop) (sidx : Nat) :
    (∃ r, MValue.assign dt didx st sidx false = .ok r) ↔
      ((dt.descAt didx).code = (st.descAt sidx).code ∧
        assignKindOk (dt.descAt didx).code) := by
  unfold MValue.assign
  by_cases hc : (dt.descAt didx).code = (st.descAt sidx).code ∧
      assignKindOk (dt.descAt didx).code
  · obtain ⟨hcode, hkind⟩ := hc
    have hkind2 : assignKindOk (st.descAt sidx).code := hcode ▸ hkind
    simp [hcode, hkind, hkind2]
  · rw [if_neg (by simp only [eq_self_iff_true, true_and]; exact hc)]
    simp [hc]

/-- C10: shared_array::at throws std::out_of_range exactly when the index is
strictly greater than size(); in particular at(size()) does not throw and
yields the reference one past the last element. -/
theorem C10_shared_array_at (a : shared_array) (i : Nat) :
    ((∃ e, a.atRef i = .error e) ↔ a.size < i) ∧
    a.atRef a.size = .ok a.size := by
  unfold shared_array.atRef
  constructor
  · by_cases hgt : i > a.size
    · simp [hgt]
    · simp [hgt]
  · simp

end Pvxs
